import Mathlib

set_option maxRecDepth 8000

/-!
Verification development for the e-commerce recommendation core of the
repository (`2.cpp`): `ProductAgent` (content-similarity index),
`RecommendationAgent` (three-tier waterfall), and `SegmentationAgent`
(k-means clustering).  Numeric code that the C++ performs on `double`s is
embedded over `ℚ` (exact real arithmetic); `std::hash<string>` is
implementation-defined, so product texts are abstracted by their hash value
(an arbitrary natural number).
-/

namespace ECommerceRec

/-! ## ProductAgent: text vectors and the similarity index

`ProductAgent::createTextVector` (2.cpp:279-288): a 128-component vector whose
`i`-th entry is `(hash % (i+1)) / 100.0`. -/

/-- Embedding of `ProductAgent::createTextVector`, as a function of the
(implementation-defined) `std::hash<string>` value of the concatenated
`name + " " + description + " " + tags` text. -/
def createTextVector (h : ℕ) : List ℚ :=
  (List.range 128).map (fun i => ((h % (i + 1) : ℕ) : ℚ) / 100)

/-- `std::inner_product(u.begin(), u.end(), v.begin(), 0.0)`. -/
def dotQ (u v : List ℚ) : ℚ := (List.zipWith (· * ·) u v).sum

/-- The squared Euclidean norm `inner_product(u, u)`; the code takes
`sqrt` of this before dividing. -/
def normSq (u : List ℚ) : ℚ := dotQ u u

/-- The state of `ProductAgent`: the parallel arrays `productIds` and
`productVectors` (2.cpp:264-265). -/
structure AgentState where
  productIds : List String
  productVectors : List (List ℚ)
deriving DecidableEq

/-- Embedding of `ProductAgent::prepareProductVectors` (2.cpp:267-277): clears
both arrays and refills them from the product rows, each row abstracted as
`(product_id, hash of concatenated text)`.  The previous state is discarded
entirely (`productIds.clear(); productVectors.clear();`). -/
def prepareProductVectors (rows : List (String × ℕ)) (_prev : AgentState) : AgentState :=
  { productIds := rows.map (·.1)
    productVectors := rows.map (fun r => createTextVector r.2) }

/-- The exact value of one entry of `calculateSimilarities` (2.cpp:290-299),
represented symbolically: the pair `(dot, normSq u * normSq v)` stands for the
real number `dot / (sqrt (normSq u) * sqrt (normSq v))`, which is exactly what
the code computes as `dot / (norm1 * norm2)`.  The denominator
`norm1 * norm2 = sqrt (normSq u * normSq v)` is zero iff the second component
is zero. -/
def simVal (u v : List ℚ) : ℚ × ℚ := (dotQ u v, normSq u * normSq v)

/-- The code's division `dot / (norm1 * norm2)` denotes a real number iff the
denominator `norm1 * norm2` is nonzero, i.e. iff `normSq u * normSq v ≠ 0`.
There is no zero-norm special case anywhere in `calculateSimilarities`:
when this fails the double division yields `0.0 / 0.0 = NaN`. -/
def codeSimilarityDefined (u v : List ℚ) : Prop := normSq u * normSq v ≠ 0

/-- IEEE comparison `a > b` of the two similarity values encoded by `simVal`
pairs, i.e. of `d₁ / sqrt p₁` and `d₂ / sqrt p₂` (with `p ≥ 0` always, since
`p` is a product of sums of squares).  When a denominator is zero the
similarity is `NaN` (its numerator is then necessarily zero as well, because a
rational vector with zero norm is the zero vector), and every IEEE comparison
against `NaN` is false.  For nonzero denominators the comparison is decided by
exact cross-multiplication of squares, with the sign analysis making
`d / sqrt p > d' / sqrt p'` rational-decidable. -/
def fracGT (a b : ℚ × ℚ) : Bool :=
  if a.2 ≤ 0 ∨ b.2 ≤ 0 then false
  else if 0 ≤ a.1 then
    if 0 ≤ b.1 then decide (b.1 * b.1 * a.2 < a.1 * a.1 * b.2) else true
  else
    if 0 ≤ b.1 then false else decide (a.1 * a.1 * b.2 < b.1 * b.1 * a.2)

/-- Embedding of `ProductAgent::calculateSimilarities` (2.cpp:290-299): the
list of (symbolically represented) similarity values of `vec` against every
stored product vector, in storage order. -/
def calculateSimilarities (st : AgentState) (vec : List ℚ) : List (ℚ × ℚ) :=
  st.productVectors.map (fun w => simVal vec w)

/-- The comparator passed to `std::partial_sort` (2.cpp:235):
`similarities[a] > similarities[b]`. -/
def simComp (sims : List (ℚ × ℚ)) (a b : ℕ) : Bool :=
  fracGT (sims.getD a (0, 0)) (sims.getD b (0, 0))

/-- The postcondition of `std::partial_sort(first, first + m, last, lt)` on a
sequence `l`, from the C++ standard: the output is a permutation of the input;
the first `m` positions are sorted with respect to `lt` (no later element of
that range compares `lt`-before an earlier one); and no element at or beyond
position `m` compares `lt`-before an element of the sorted range.  The order
of `lt`-equivalent elements is NOT specified, so the result is a relation, not
a function. -/
def SortedSelection (m : ℕ) (lt : ℕ → ℕ → Bool) (l out : List ℕ) : Prop :=
  l.Perm out ∧
  (∀ j, j < m → j < out.length → ∀ i, i < j → lt (out.getD j 0) (out.getD i 0) = false) ∧
  (∀ j, m ≤ j → j < out.length → ∀ i, i < m → lt (out.getD j 0) (out.getD i 0) = false)

/-- The loop at 2.cpp:237-242: walk the first `min topN n` sorted indices,
skip the query's own index, and map the survivors to product ids. -/
def buildResult (ids : List String) (perm : List ℕ) (idx topN : ℕ) : List String :=
  ((perm.take topN).filter (fun j => j ≠ idx)).map (fun j => ids.getD j "")

/-- Relational embedding of `ProductAgent::getSimilarProducts` (2.cpp:223-244).
An early `{}` is returned when the vector store is empty or the id is absent
(2.cpp:224-227).  Otherwise `idx` is the first index of `productId`
(`std::find`), the similarity list is computed against `productVectors[idx]`,
`indices = iota(0, n)` is partially sorted (any outcome satisfying the
standard's contract is allowed), and the result list is built from it. -/
def getSimilarProductsRel (st : AgentState) (productId : String) (topN : ℕ)
    (res : List String) : Prop :=
  if st.productVectors = [] ∨ st.productIds = [] then res = []
  else if productId ∈ st.productIds then
    let idx := st.productIds.indexOf productId
    let sims := calculateSimilarities st (st.productVectors.getD idx [])
    ∃ perm : List ℕ,
      SortedSelection (topN + 1) (simComp sims) (List.range sims.length) perm ∧
      res = buildResult st.productIds perm idx topN
  else res = []

/-- The offset of the middle iterator in the call
`partial_sort(indices.begin(), indices.begin() + topN + 1, indices.end(), ...)`
(2.cpp:234). -/
def sortMiddleOffset (topN : ℕ) : ℕ := topN + 1

/-- The middle iterator of the `partial_sort` call stays within the `indices`
vector (whose size is `similarities.size() = productVectors.size()`); when
this fails the call's precondition `middle ≤ last` is violated (undefined
behavior in C++). -/
def sortMiddleInBounds (st : AgentState) (topN : ℕ) : Prop :=
  sortMiddleOffset topN ≤ st.productVectors.length

/-! ## RecommendationAgent

`RecommendationAgent::getRecommendations` (2.cpp:447-481).  The SQL queries it
issues to the external store are modelled by their results, per the store
interface: `recentProducts` is the result of the `ORDER BY timestamp DESC
LIMIT 3` interaction query, `sim p` is the similar-products component call
`productAgent.getSimilarProducts(p, topN)`, `segRecs seg` is the segment
purchase-ranking query, and `fallback` is the popularity query result. -/

/-- `std::string::operator<`: lexicographic byte-wise comparison of the
character sequences. -/
def charListLt : List Char → List Char → Bool
  | [], [] => false
  | [], _ :: _ => true
  | _ :: _, [] => false
  | a :: as, b :: bs => if a < b then true else if b < a then false else charListLt as bs

/-- `operator<` on `std::string`. -/
def strLt (a b : String) : Bool := charListLt a.data b.data

/-- `std::unique` on a sorted range: collapse runs of adjacent equal
elements. -/
def dedupAdjacent : List String → List String
  | [] => []
  | a :: t =>
    match dedupAdjacent t with
    | [] => [a]
    | b :: t' => if a = b then b :: t' else a :: b :: t'

/-- Lines 2.cpp:466-470: `sort`, `unique`+`erase`, then `resize(topN)` when the
deduplicated list is longer than `topN`.  `std::sort` is modelled by
`mergeSort` with the non-strict comparator induced by `operator<`; since equal
`std::string`s are indistinguishable values, every correct sort produces the
same list here. -/
def sortedDedupTake (l : List String) (topN : ℕ) : List String :=
  let deduped := dedupAdjacent (l.mergeSort (fun a b => ! strLt b a))
  if topN < deduped.length then deduped.take topN else deduped

/-- Embedding of `RecommendationAgent::getRecommendations` (2.cpp:447-481).
The profile query result is `customers.find?` over the `(customer_id,
segment)` rows (ids are a PRIMARY KEY); an absent customer returns the
popularity fallback immediately (2.cpp:451).  Tier 1 gathers the similar
products of the recent interactions and, when non-empty, deduplicates by
sorting; tier 2 returns the segment ranking when non-empty; tier 3 is the
fallback. -/
def getRecommendations (customers : List (String × String)) (customerId : String)
    (recentProducts : List String) (sim : String → List String)
    (segRecs : String → List String) (fallback : List String) (topN : ℕ) : List String :=
  match customers.find? (fun r => r.1 == customerId) with
  | none => fallback
  | some row =>
    let similarProducts := (recentProducts.map sim).flatten
    if recentProducts ≠ [] ∧ similarProducts ≠ [] then
      sortedDedupTake similarProducts topN
    else if segRecs row.2 ≠ [] then segRecs row.2
    else fallback

/-- The contract of `getFallbackRecommendations` (2.cpp:513-521): its SQL
`SELECT product_id FROM products ORDER BY popularity_score DESC LIMIT topN`
returns the ids of the first `topN` rows of some ordering of the products
table that is non-increasing in `popularity_score` (SQLite does not specify
the relative order of ties). -/
def getFallbackRel (products : List (String × ℚ)) (topN : ℕ) (res : List String) : Prop :=
  ∃ ord, products.Perm ord ∧ ord.Pairwise (fun a b => b.2 ≤ a.2) ∧
    res = (ord.map Prod.fst).take topN

/-- Modelled from the spec: de-duplication "preserving first-seen order",
keeping the first occurrence of each id in the concatenated lookup lists. -/
def firstSeenDedup (l : List String) : List String :=
  l.foldl (fun acc x => if x ∈ acc then acc else acc ++ [x]) []

/-- Modelled from the spec (§4.5 tier 1): union the per-interaction lookup
results, de-duplicate preserving first-seen order, truncate to `topN`. -/
def specPersonalizedTier (lookups : List (List String)) (topN : ℕ) : List String :=
  (firstSeenDedup lookups.flatten).take topN

/-! ## SegmentationAgent::simpleKMeans (2.cpp:384-439)

Feature points are `d`-dimensional rational vectors (the caller always passes
`d = 4`: interaction count, purchase count, total spent, active months). -/

/-- A feature / centroid point. -/
def Point (d : ℕ) : Type := Fin d → ℚ

/-- The all-zeros point (the initial value of each `newCentroids[j]`,
2.cpp:420). -/
def zeroPoint (d : ℕ) : Point d := fun _ => 0

/-- Squared Euclidean distance (2.cpp:404-407). -/
def sqDist {d : ℕ} (x y : Point d) : ℚ := ∑ i, (x i - y i) ^ 2

/-- The scan of 2.cpp:401-412 generalized: fold over candidate indices keeping
the accumulator unless a strictly smaller value appears, so the first index
attaining the minimum wins. -/
def pickBest (f : ℕ → ℚ) : List ℕ → ℕ → ℕ
  | [], best => best
  | j :: js, best => pickBest f js (if f j < f best then j else best)

/-- Assignment of one point to its cluster (2.cpp:400-412): scan
`j = 0, …, k-1` with `bestCluster = 0` and `bestDistance = DBL_MAX`; the first
comparison always succeeds (every distance is finite), so the scan equals
`pickBest` over `range k` started at index `0` (for which the `j = 0`
comparison is a no-op, `d₀ < d₀` being false). -/
def assignPoint {d : ℕ} (cents : List (Point d)) (x : Point d) : ℕ :=
  pickBest (fun j => sqDist x (cents.getD j (zeroPoint d))) (List.range cents.length) 0

/-- One assignment pass over all features (2.cpp:400-417). -/
def assignAll {d : ℕ} (cents : List (Point d)) (features : List (Point d)) : List ℕ :=
  features.map (assignPoint cents)

/-- The features accumulated into `newCentroids[j]` (2.cpp:422-427): those
`features[i]` with `clusters[i] = j`, in order. -/
def clusterMembers {d : ℕ} (features : List (Point d)) (A : List ℕ) (j : ℕ) :
    List (Point d) :=
  ((features.zip A).filter (fun p => p.2 == j)).map Prod.fst

/-- Coordinate-wise mean of a list of points. -/
def meanPoint {d : ℕ} (P : List (Point d)) : Point d :=
  fun i => (P.map (fun x => x i)).sum / P.length

/-- The centroid update (2.cpp:419-435): `newCentroids` starts as all-zero
vectors; sums and counts are accumulated per cluster; a cluster with
`counts[j] > 0` is divided through (giving the member mean), and a cluster
with zero members is left at the zero vector. -/
def updateCentroids {d : ℕ} (k : ℕ) (features : List (Point d)) (A : List ℕ) :
    List (Point d) :=
  (List.range k).map (fun j =>
    if (clusterMembers features A j).length = 0 then zeroPoint d
    else meanPoint (clusterMembers features A j))

/-- The body of the `do … while (changed)` loop applied once (2.cpp:398-436):
an assignment pass from the current centroids followed by the centroid
update.  The previous centroids are discarded (`centroids = newCentroids`). -/
def kmeansIter {d : ℕ} (features : List (Point d)) (k : ℕ) (C : List (Point d)) :
    List ℕ × List (Point d) :=
  let A' := assignAll C features
  (A', updateCentroids k features A')

/-- The `do … while (changed)` loop with explicit fuel: run an assignment
pass; exit returning the (unchanged) clusters when no point moved, otherwise
update the centroids and continue.  (The C++ loop has no iteration cap; the
fuel is proof bookkeeping, shown sufficient below.) -/
def kmeansLoop {d : ℕ} (features : List (Point d)) (k : ℕ) :
    ℕ → List ℕ → List (Point d) → List ℕ
  | 0, A, _ => A
  | fuel + 1, A, C =>
    let A' := assignAll C features
    if A' = A then A'
    else kmeansLoop features k fuel A' (updateCentroids k features A')

/-- Fuel that provably suffices for the loop to reach its no-change exit. -/
def kmeansFuel (n k : ℕ) : ℕ := k ^ n + 2

/-- The random centroid initialization (2.cpp:392-394):
`centroids[i] = features[rand() % features.size()]`, with the unseeded
`rand()` stream abstracted as a function `rnd`. -/
def initCentroids {d : ℕ} (features : List (Point d)) (k : ℕ) (rnd : ℕ → ℕ) :
    List (Point d) :=
  (List.range k).map (fun i => features.getD (rnd i % features.length) (zeroPoint d))

/-- `SegmentationAgent::simpleKMeans` (2.cpp:384-439) with explicit fuel:
empty input or `k ≤ 0` returns `{}` (2.cpp:385); otherwise the loop runs from
the all-zeros assignment (`vector<int> clusters(n, 0)`, 2.cpp:388) and the
randomly initialized centroids. -/
def simpleKMeansFuel {d : ℕ} (fuel : ℕ) (features : List (Point d)) (k : ℕ)
    (rnd : ℕ → ℕ) : List ℕ :=
  if features.length = 0 ∨ k = 0 then []
  else kmeansLoop features k fuel (List.replicate features.length 0)
    (initCentroids features k rnd)

/-- `SegmentationAgent::simpleKMeans`, with the sufficient fuel supplied. -/
def simpleKMeans {d : ℕ} (features : List (Point d)) (k : ℕ) (rnd : ℕ → ℕ) : List ℕ :=
  simpleKMeansFuel (kmeansFuel features.length k) features k rnd

/-- The deterministic trajectory of the loop's state `(clusters, centroids)`:
stage 0 is the initial state, stage `t+1` is one loop body later. -/
def kmeansTraj {d : ℕ} (features : List (Point d)) (k : ℕ) (C₀ : List (Point d)) :
    ℕ → List ℕ × List (Point d)
  | 0 => (List.replicate features.length 0, C₀)
  | t + 1 => kmeansIter features k (kmeansTraj features k C₀ t).2

/-- The within-cluster sum of squared distances of an assignment against a
centroid list (proof potential function; not part of the code). -/
def cost {d : ℕ} (features : List (Point d)) (A : List ℕ) (C : List (Point d)) : ℚ :=
  ((features.zip A).map (fun p => sqDist p.1 (C.getD p.2 (zeroPoint d)))).sum

/-- The proof potential of an assignment: its within-cluster cost against its
own updated centroids, paired with the sum of its cluster indices (the
tie-break measure; not part of the code). -/
def kmeansMeasure {d : ℕ} (features : List (Point d)) (k : ℕ) (A : List ℕ) : ℚ × ℕ :=
  (cost features A (updateCentroids k features A), A.sum)

/-- Strict lexicographic order on the potential. -/
def measureLt (a b : ℚ × ℕ) : Prop := a.1 < b.1 ∨ (a.1 = b.1 ∧ a.2 < b.2)

/-! ## Concrete instances used by the claim theorems -/

/-- Two products with identical text (hence identical vectors). -/
def stC2 : AgentState := prepareProductVectors [("P1", 1), ("P2", 1)] ⟨[], []⟩

/-- A one-product index. -/
def stC5 : AgentState := prepareProductVectors [("P1", 1)] ⟨[], []⟩

/-- Query product `P1` plus the tie `P2`/`P3` (identical text, hence equal
similarity to `P1`) and a strictly less similar `P4`. -/
def stC6 : AgentState := prepareProductVectors [("P1", 1), ("P2", 2), ("P3", 2), ("P4", 3)] ⟨[], []⟩

/-- Query product `P1`; `P3` is strictly more similar to it than `P2`, and
`P4` is the least similar, so the similarity ranking disagrees with the
lexicographic id order. -/
def stC3 : AgentState := prepareProductVectors [("P1", 1), ("P2", 3), ("P3", 2), ("P4", 4)] ⟨[], []⟩

/-- The similar-products component results used by the tier-1 counterexample:
the (conforming, see `c3_counterexample`) lookup for `P1` on `stC3`. -/
def simLookupC3 : String → List String := fun p => if p = "P1" then ["P3", "P2"] else []

/-- One 1-dimensional feature, for the centroid-reset counterexample. -/
def featC8 : List (Point 1) := [fun _ => 3]

/-- Centroids for the counterexample: the second is nonzero and about to end
up with zero members. -/
def centsC8 : List (Point 1) := [fun _ => 3, fun _ => 100]

/-! ## Evaluation lemmas for the hash vectors -/

lemma sum_map_mul_div_sq (l : List ℕ) (f g : ℕ → ℕ) (c : ℚ) :
    (l.map (fun i => (f i : ℚ) / c * ((g i : ℚ) / c))).sum
      = ((l.map (fun i => f i * g i)).sum : ℚ) / (c * c) := by
  induction l with
  | nil => simp
  | cons a t ih =>
    simp only [List.map_cons, List.sum_cons, ih, Nat.cast_add, Nat.cast_mul]
    rw [div_mul_div_comm, div_add_div_same]

lemma dotQ_createTextVector (a b : ℕ) :
    dotQ (createTextVector a) (createTextVector b)
      = (((List.range 128).map (fun i => (a % (i + 1)) * (b % (i + 1)))).sum : ℚ) / 10000 := by
  unfold dotQ createTextVector
  rw [List.zipWith_map_left, List.zipWith_map_right, List.zipWith_same]
  rw [show ((10000 : ℚ) = 100 * 100) by norm_num]
  exact sum_map_mul_div_sq _ _ _ _

lemma dot11 : dotQ (createTextVector 1) (createTextVector 1) = 127 / 10000 := by
  rw [dotQ_createTextVector]
  norm_num [show ((List.range 128).map (fun i => (1 % (i + 1)) * (1 % (i + 1)))).sum = 127
    from by decide]

lemma dot12 : dotQ (createTextVector 1) (createTextVector 2) = 252 / 10000 := by
  rw [dotQ_createTextVector]
  norm_num [show ((List.range 128).map (fun i => (1 % (i + 1)) * (2 % (i + 1)))).sum = 252
    from by decide]

lemma dot13 : dotQ (createTextVector 1) (createTextVector 3) = 376 / 10000 := by
  rw [dotQ_createTextVector]
  norm_num [show ((List.range 128).map (fun i => (1 % (i + 1)) * (3 % (i + 1)))).sum = 376
    from by decide]

lemma dot14 : dotQ (createTextVector 1) (createTextVector 4) = 497 / 10000 := by
  rw [dotQ_createTextVector]
  norm_num [show ((List.range 128).map (fun i => (1 % (i + 1)) * (4 % (i + 1)))).sum = 497
    from by decide]

lemma dot22 : dotQ (createTextVector 2) (createTextVector 2) = 504 / 10000 := by
  rw [dotQ_createTextVector]
  norm_num [show ((List.range 128).map (fun i => (2 % (i + 1)) * (2 % (i + 1)))).sum = 504
    from by decide]

lemma dot33 : dotQ (createTextVector 3) (createTextVector 3) = 1126 / 10000 := by
  rw [dotQ_createTextVector]
  norm_num [show ((List.range 128).map (fun i => (3 % (i + 1)) * (3 % (i + 1)))).sum = 1126
    from by decide]

lemma dot44 : dotQ (createTextVector 4) (createTextVector 4) = 1985 / 10000 := by
  rw [dotQ_createTextVector]
  norm_num [show ((List.range 128).map (fun i => (4 % (i + 1)) * (4 % (i + 1)))).sum = 1985
    from by decide]

lemma dot01 : dotQ (createTextVector 0) (createTextVector 1) = 0 := by
  rw [dotQ_createTextVector]
  norm_num [show ((List.range 128).map (fun i => (0 % (i + 1)) * (1 % (i + 1)))).sum = 0
    from by decide]

lemma dot00 : dotQ (createTextVector 0) (createTextVector 0) = 0 := by
  rw [dotQ_createTextVector]
  norm_num [show ((List.range 128).map (fun i => (0 % (i + 1)) * (0 % (i + 1)))).sum = 0
    from by decide]

/-! ## Facts about the similarity comparator -/

lemma fracGT_self (a : ℚ × ℚ) : fracGT a a = false := by
  unfold fracGT
  split_ifs <;> simp [lt_irrefl]

lemma fracGT_21 :
    fracGT (252 / 10000, 64008 / 100000000) (127 / 10000, 16129 / 100000000) = false := by
  norm_num [fracGT]

lemma fracGT_31 :
    fracGT (376 / 10000, 143002 / 100000000) (127 / 10000, 16129 / 100000000) = false := by
  norm_num [fracGT]

lemma fracGT_32 :
    fracGT (376 / 10000, 143002 / 100000000) (252 / 10000, 64008 / 100000000) = false := by
  norm_num [fracGT]

lemma fracGT_41 :
    fracGT (497 / 10000, 252095 / 100000000) (127 / 10000, 16129 / 100000000) = false := by
  norm_num [fracGT]

lemma fracGT_42 :
    fracGT (497 / 10000, 252095 / 100000000) (252 / 10000, 64008 / 100000000) = false := by
  norm_num [fracGT]

lemma fracGT_43 :
    fracGT (497 / 10000, 252095 / 100000000) (376 / 10000, 143002 / 100000000) = false := by
  norm_num [fracGT]

/-! ## Similarity lists of the concrete index states -/

lemma sims_stC2 :
    calculateSimilarities stC2 (stC2.productVectors.getD (stC2.productIds.indexOf "P2") [])
      = [(127 / 10000, (16129 : ℚ) / 100000000), (127 / 10000, 16129 / 100000000)] := by
  have h : stC2.productIds.indexOf "P2" = 1 := by decide
  rw [h]
  show [simVal (createTextVector 1) (createTextVector 1),
        simVal (createTextVector 1) (createTextVector 1)] = _
  simp only [simVal, normSq, dot11]
  norm_num

lemma sims_stC6 :
    calculateSimilarities stC6 (stC6.productVectors.getD (stC6.productIds.indexOf "P1") [])
      = [(127 / 10000, (16129 : ℚ) / 100000000), (252 / 10000, 64008 / 100000000),
         (252 / 10000, 64008 / 100000000), (376 / 10000, 143002 / 100000000)] := by
  have h : stC6.productIds.indexOf "P1" = 0 := by decide
  rw [h]
  show [simVal (createTextVector 1) (createTextVector 1),
        simVal (createTextVector 1) (createTextVector 2),
        simVal (createTextVector 1) (createTextVector 2),
        simVal (createTextVector 1) (createTextVector 3)] = _
  simp only [simVal, normSq, dot11, dot12, dot13, dot22, dot33]
  norm_num

lemma sims_stC3 :
    calculateSimilarities stC3 (stC3.productVectors.getD (stC3.productIds.indexOf "P1") [])
      = [(127 / 10000, (16129 : ℚ) / 100000000), (376 / 10000, 143002 / 100000000),
         (252 / 10000, 64008 / 100000000), (497 / 10000, 252095 / 100000000)] := by
  have h : stC3.productIds.indexOf "P1" = 0 := by decide
  rw [h]
  show [simVal (createTextVector 1) (createTextVector 1),
        simVal (createTextVector 1) (createTextVector 3),
        simVal (createTextVector 1) (createTextVector 2),
        simVal (createTextVector 1) (createTextVector 4)] = _
  simp only [simVal, normSq, dot11, dot12, dot13, dot14, dot22, dot33, dot44]
  norm_num

/-! ## Conforming partial-sort outcomes on the concrete states -/

lemma sortedSel_stC2 :
    SortedSelection 2
      (simComp [(127 / 10000, (16129 : ℚ) / 100000000), (127 / 10000, 16129 / 100000000)])
      (List.range 2) [0, 1] := by
  refine ⟨by decide, ?_, ?_⟩
  · intro j hj hj' i hi
    interval_cases j <;> interval_cases i <;>
      · show fracGT _ _ = false
        exact fracGT_self _
  · intro j hj hj' i hi
    simp at hj'
    omega

lemma sortedSel_stC6 :
    SortedSelection 4
      (simComp [(127 / 10000, (16129 : ℚ) / 100000000), (252 / 10000, 64008 / 100000000),
        (252 / 10000, 64008 / 100000000), (376 / 10000, 143002 / 100000000)])
      (List.range 4) [0, 2, 1, 3] := by
  refine ⟨by decide, ?_, ?_⟩
  · intro j hj hj' i hi
    interval_cases j <;> interval_cases i <;>
      first
        | (show fracGT _ _ = false; first
            | exact fracGT_self _
            | exact fracGT_21
            | exact fracGT_31
            | exact fracGT_32)
  · intro j hj hj' i hi
    simp at hj'
    omega

lemma sortedSel_stC3 :
    SortedSelection 4
      (simComp [(127 / 10000, (16129 : ℚ) / 100000000), (376 / 10000, 143002 / 100000000),
        (252 / 10000, 64008 / 100000000), (497 / 10000, 252095 / 100000000)])
      (List.range 4) [0, 2, 1, 3] := by
  refine ⟨by decide, ?_, ?_⟩
  · intro j hj hj' i hi
    interval_cases j <;> interval_cases i <;>
      first
        | (show fracGT _ _ = false; first
            | exact fracGT_self _
            | exact fracGT_21
            | exact fracGT_31
            | exact fracGT_32
            | exact fracGT_41
            | exact fracGT_42
            | exact fracGT_43)
  · intro j hj hj' i hi
    simp at hj'
    omega

lemma rel_stC2 : getSimilarProductsRel stC2 "P2" 1 ["P1"] := by
  unfold getSimilarProductsRel
  rw [if_neg (by decide), if_pos (by decide)]
  refine ⟨[0, 1], ?_, by decide⟩
  rw [sims_stC2]
  exact sortedSel_stC2

lemma rel_stC6 : getSimilarProductsRel stC6 "P1" 3 ["P3", "P2"] := by
  unfold getSimilarProductsRel
  rw [if_neg (by decide), if_pos (by decide)]
  refine ⟨[0, 2, 1, 3], ?_, by decide⟩
  rw [sims_stC6]
  exact sortedSel_stC6

lemma rel_stC3 : getSimilarProductsRel stC3 "P1" 3 ["P3", "P2"] := by
  unfold getSimilarProductsRel
  rw [if_neg (by decide), if_pos (by decide)]
  refine ⟨[0, 2, 1, 3], ?_, by decide⟩
  rw [sims_stC3]
  exact sortedSel_stC3

/-! ## Sums of squares -/

lemma normSq_eq_sum_sq (u : List ℚ) : normSq u = (u.map (fun x => x * x)).sum := by
  unfold normSq dotQ
  rw [List.zipWith_same]

lemma sum_sq_eq_zero_iff (l : List ℚ) :
    (l.map (fun x => x * x)).sum = 0 ↔ ∀ x ∈ l, x = 0 := by
  induction l with
  | nil => simp
  | cons a t ih =>
    simp only [List.map_cons, List.sum_cons, List.mem_cons]
    constructor
    · intro h
      have ht : 0 ≤ (t.map (fun x => x * x)).sum := by
        apply List.sum_nonneg
        intro y hy
        obtain ⟨x, _, rfl⟩ := List.mem_map.mp hy
        exact mul_self_nonneg x
      have ha : 0 ≤ a * a := mul_self_nonneg a
      have ha0 : a = 0 := by
        have : a * a = 0 := by linarith
        exact mul_self_eq_zero.mp this
      have ht0 : ∀ x ∈ t, x = 0 := ih.mp (by linarith [mul_self_nonneg a])
      rintro x (rfl | hx)
      · exact ha0
      · exact ht0 x hx
    · intro h
      have ha0 : a = 0 := h a (Or.inl rfl)
      have ht0 : (t.map (fun x => x * x)).sum = 0 :=
        ih.mpr (fun x hx => h x (Or.inr hx))
      simp [ha0, ht0]

/-! ## Claim C1: the cosine-similarity zero-norm policy -/

/-- C1 (amended): the similarity entry computed by `calculateSimilarities` is
exactly `dot (u, v) / (‖u‖ ⬝ ‖v‖)` with NO zero-norm special case: the
division denotes a real number precisely when both vectors have nonzero norm,
and a vector has zero norm precisely when it is the zero vector.  A zero-norm
operand therefore makes the code compute `0.0 / 0.0` (`NaN`), not the value
`0` required by the claim. -/
theorem c1_zero_norm_similarity :
    (∀ u v : List ℚ, simVal u v = (dotQ u v, normSq u * normSq v)) ∧
    (∀ u v : List ℚ, codeSimilarityDefined u v ↔ normSq u ≠ 0 ∧ normSq v ≠ 0) ∧
    (∀ u : List ℚ, normSq u = 0 ↔ ∀ x ∈ u, x = 0) := by
  refine ⟨fun _ _ => rfl, fun u v => mul_ne_zero_iff, fun u => ?_⟩
  rw [normSq_eq_sum_sq]
  exact sum_sq_eq_zero_iff u

/-- C1 counterexample: the vector of a product whose text hashes to `0` is the
zero vector; comparing it with any other product vector puts `0` in the
divisor of `calculateSimilarities` with numerator `0`, so the computed
similarity is `0.0 / 0.0 = NaN` — the claim's required value `0` is not what
the code produces, since the division is undefined. -/
theorem c1_counterexample :
    createTextVector 0 = List.replicate 128 (0 : ℚ) ∧
    dotQ (createTextVector 0) (createTextVector 1) = 0 ∧
    normSq (createTextVector 0) * normSq (createTextVector 1) = 0 ∧
    ¬ codeSimilarityDefined (createTextVector 0) (createTextVector 1) := by
  have h0 : normSq (createTextVector 0) = 0 := dot00
  have hv : createTextVector 0 = List.replicate 128 (0 : ℚ) := by
    unfold createTextVector
    simp
  refine ⟨hv, dot01, by rw [h0]; ring, ?_⟩
  unfold codeSimilarityDefined
  rw [h0]
  simp

/-! ## Claim C2: the query id never appears in its own result -/

/-- C2: for every index built by `prepareProductVectors` from rows with
distinct product ids (`product_id` is the table's PRIMARY KEY) and every
conforming outcome of `getSimilarProducts`, the queried id is not in the
result: the loop at 2.cpp:239 skips `indices[i] == idx` and distinct ids make
`idx` the only position holding the queried id. -/
theorem c2_excludes_query (rows : List (String × ℕ)) (prev : AgentState) (pid : String)
    (topN : ℕ) (res : List String) (hnd : (rows.map Prod.fst).Nodup)
    (hrel : getSimilarProductsRel (prepareProductVectors rows prev) pid topN res) :
    pid ∉ res := by
  unfold getSimilarProductsRel at hrel
  split_ifs at hrel with h1 h2
  · simp [hrel]
  · obtain ⟨perm, hps, hres⟩ := hrel
    subst hres
    intro hmem
    unfold buildResult at hmem
    obtain ⟨j, hjmem, hj⟩ := List.mem_map.mp hmem
    have hjtake := (List.mem_filter.mp hjmem).1
    have hjne : j ≠ (prepareProductVectors rows prev).productIds.indexOf pid := by
      have := (List.mem_filter.mp hjmem).2
      simpa using this
    have hjperm : j ∈ perm := List.take_subset _ _ hjtake
    have hjrange : j ∈ List.range
        (calculateSimilarities (prepareProductVectors rows prev)
          ((prepareProductVectors rows prev).productVectors.getD
            ((prepareProductVectors rows prev).productIds.indexOf pid) [])).length :=
      hps.1.mem_iff.mpr hjperm
    have hjlt : j < rows.length := by
      have := List.mem_range.mp hjrange
      simpa [calculateSimilarities, prepareProductVectors] using this
    have hidslen : (prepareProductVectors rows prev).productIds.length = rows.length := by
      simp [prepareProductVectors]
    have hjlt' : j < (prepareProductVectors rows prev).productIds.length := by omega
    have hgd : (prepareProductVectors rows prev).productIds.getD j ""
        = (prepareProductVectors rows prev).productIds[j] := by
      rw [List.getD_eq_getElem?_getD, List.getElem?_eq_getElem hjlt']
      rfl
    rw [hgd] at hj
    have hidx : (prepareProductVectors rows prev).productIds.indexOf pid
        < (prepareProductVectors rows prev).productIds.length :=
      List.indexOf_lt_length.mpr h2
    have hival : (prepareProductVectors rows prev).productIds[
        (prepareProductVectors rows prev).productIds.indexOf pid] = pid :=
      List.getElem_indexOf hidx
    have hnd' : (prepareProductVectors rows prev).productIds.Nodup := by
      simpa [prepareProductVectors] using hnd
    exact hjne ((hnd'.getElem_inj_iff).mp (hj.trans hival.symm))
  · simp [hrel]

/-- C2 witness: a concrete two-product index, query `P2`, one conforming
outcome. -/
theorem c2_excludes_query_witness :
    ((([("P1", 1), ("P2", 1)] : List (String × ℕ)).map Prod.fst).Nodup) ∧
    getSimilarProductsRel stC2 "P2" 1 ["P1"] ∧ "P2" ∉ (["P1"] : List String) :=
  ⟨by decide, rel_stC2,
    c2_excludes_query [("P1", 1), ("P2", 1)] ⟨[], []⟩ "P2" 1 ["P1"] (by decide) rel_stC2⟩

/-! ## Claim C5: querying an absent id -/

/-- C5 (amended): a query for an id absent from the index returns the empty
list through the early `return {}` at 2.cpp:227 — an ordinary result, the same
value the empty-index case returns; no `NotFoundError` (or any other error
signal) exists in the code. -/
theorem c5_absent_id (st : AgentState) (pid : String) (topN : ℕ) (res : List String)
    (habs : pid ∉ st.productIds) :
    getSimilarProductsRel st pid topN res ↔ res = [] := by
  unfold getSimilarProductsRel
  by_cases h1 : st.productVectors = [] ∨ st.productIds = []
  · rw [if_pos h1]
  · rw [if_neg h1, if_neg habs]

/-- C5 counterexample: on a one-product index, querying the absent id `P2`
produces the ordinary empty list (and nothing else), exactly the value that
the defined non-error empty-index query produces — there is no failure. -/
theorem c5_counterexample :
    getSimilarProductsRel stC5 "P2" 5 [] ∧
    ¬ getSimilarProductsRel stC5 "P2" 5 ["P1"] ∧
    getSimilarProductsRel ⟨[], []⟩ "P2" 5 [] := by
  refine ⟨?_, ?_, ?_⟩
  · unfold getSimilarProductsRel
    rw [if_neg (by decide), if_neg (by decide)]
  · unfold getSimilarProductsRel
    rw [if_neg (by decide), if_neg (by decide)]
    decide
  · unfold getSimilarProductsRel
    rw [if_pos (Or.inl rfl)]

/-- C5 witness: the amended theorem applied at the concrete absent-id query. -/
theorem c5_absent_id_witness :
    "P2" ∉ stC5.productIds ∧
    (getSimilarProductsRel stC5 "P2" 5 [] ↔ ([] : List String) = []) :=
  ⟨by decide, c5_absent_id stC5 "P2" 5 [] (by decide)⟩

/-! ## Claim C9: rebuilding the index is idempotent -/

/-- C9: `prepareProductVectors` clears the state and recomputes it from the
product rows alone, so rebuilding twice on identical input produces the very
same state as one rebuild, and every subsequent `getSimilarProducts` query
admits exactly the same outcomes. -/
theorem c9_rebuild_idempotent (rows : List (String × ℕ)) (prev : AgentState) :
    prepareProductVectors rows (prepareProductVectors rows prev)
      = prepareProductVectors rows prev ∧
    ∀ pid topN res,
      getSimilarProductsRel (prepareProductVectors rows (prepareProductVectors rows prev))
          pid topN res
        ↔ getSimilarProductsRel (prepareProductVectors rows prev) pid topN res :=
  ⟨rfl, fun _ _ _ => Iff.rfl⟩

/-! ## Claim C10: the partial_sort middle bound -/

/-- C10: when the queried id is present, the `partial_sort` middle iterator
`indices.begin() + topN + 1` stays within the `indices` vector iff the index
holds at least `topN + 1` products; an index holding between 1 and `topN`
products (1 is forced by the id being present) puts the middle bound past the
end, violating the call's precondition. -/
theorem c10_sort_bounds (rows : List (String × ℕ)) (prev : AgentState) (pid : String)
    (topN : ℕ) (hmem : pid ∈ (prepareProductVectors rows prev).productIds) :
    (sortMiddleInBounds (prepareProductVectors rows prev) topN ↔ topN + 1 ≤ rows.length) ∧
    (rows.length ≤ topN → ¬ sortMiddleInBounds (prepareProductVectors rows prev) topN) ∧
    1 ≤ rows.length := by
  have hlen : (prepareProductVectors rows prev).productVectors.length = rows.length := by
    simp [prepareProductVectors]
  have hpos : 0 < rows.length := by
    rcases rows with _ | ⟨r, t⟩
    · simp [prepareProductVectors] at hmem
    · simp
  unfold sortMiddleInBounds sortMiddleOffset
  rw [hlen]
  exact ⟨Iff.rfl, fun h1 h2 => by omega, hpos⟩

/-- C10 witness: a one-product index with the default `topN = 5`: the middle
bound `6` exceeds the vector length `1`. -/
theorem c10_sort_bounds_witness :
    "P1" ∈ (prepareProductVectors [("P1", 1)] (⟨[], []⟩ : AgentState)).productIds ∧
    ((sortMiddleInBounds (prepareProductVectors [("P1", 1)] ⟨[], []⟩) 5 ↔ 5 + 1 ≤ 1) ∧
      (1 ≤ 5 → ¬ sortMiddleInBounds (prepareProductVectors [("P1", 1)] ⟨[], []⟩) 5) ∧
      1 ≤ 1) :=
  ⟨by decide, c10_sort_bounds [("P1", 1)] ⟨[], []⟩ "P1" 5 (by decide)⟩

/-! ## Claim C6: tie order in the partial sort -/

/-- C6 (amended): in every conforming outcome of the `partial_sort` call, the
kept index list (first `topN` sorted positions with the query index removed)
is in non-increasing similarity order — no later entry compares strictly
greater — but the relative order of equal-similarity products is NOT
determined: `std::partial_sort` gives no stability guarantee, so either order
of a tied pair may appear (see `c6_counterexample`). -/
theorem c6_tie_order (sims : List (ℚ × ℚ)) (topN idx : ℕ) (perm : List ℕ)
    (hps : SortedSelection (topN + 1) (simComp sims) (List.range sims.length) perm) :
    ((perm.take topN).filter (fun j => j ≠ idx)).Pairwise
      (fun a b => simComp sims b a = false) := by
  have hpw : (perm.take topN).Pairwise (fun a b => simComp sims b a = false) := by
    rw [List.pairwise_iff_getElem]
    intro i j hi hj hij
    have hjlen : j < perm.length := by
      have := hj
      simp only [List.length_take] at this
      omega
    have hjtop : j < topN := by
      have := hj
      simp only [List.length_take] at this
      omega
    have hilen : i < perm.length := by omega
    have h := hps.2.1 j (by omega) hjlen i hij
    have hgd : ∀ m (hm : m < perm.length), perm.getD m 0 = perm[m] := by
      intro m hm
      rw [List.getD_eq_getElem?_getD, List.getElem?_eq_getElem hm]
      rfl
    rw [hgd j hjlen, hgd i hilen] at h
    simpa using h
  exact hpw.filter _

/-- C6 counterexample: on `stC6` the products `P2` and `P3` (inserted second
and third) have exactly equal similarity to the query `P1`, and
`["P3", "P2"]` — the later-inserted tie FIRST — is a conforming outcome of
`getSimilarProducts(P1, 3)`, so insertion order does not break ties and the
output is not uniquely determined. -/
theorem c6_counterexample :
    getSimilarProductsRel stC6 "P1" 3 ["P3", "P2"] ∧
    (calculateSimilarities stC6 (stC6.productVectors.getD 0 [])).getD 1 (0, 0)
      = (calculateSimilarities stC6 (stC6.productVectors.getD 0 [])).getD 2 (0, 0) ∧
    stC6.productIds.indexOf "P2" < stC6.productIds.indexOf "P3" ∧
    (["P3", "P2"] : List String).indexOf "P3" < (["P3", "P2"] : List String).indexOf "P2" :=
  ⟨rel_stC6, rfl, by decide, by decide⟩

/-- C6 witness: the amended theorem applied to the conforming outcome
`[0, 2, 1, 3]` on the concrete similarity list of `stC6`. -/
theorem c6_tie_order_witness :
    SortedSelection 4
      (simComp [(127 / 10000, (16129 : ℚ) / 100000000), (252 / 10000, 64008 / 100000000),
        (252 / 10000, 64008 / 100000000), (376 / 10000, 143002 / 100000000)])
      (List.range 4) [0, 2, 1, 3] ∧
    ((([0, 2, 1, 3] : List ℕ).take 3).filter (fun j => j ≠ 0)).Pairwise
      (fun a b =>
        simComp [(127 / 10000, (16129 : ℚ) / 100000000), (252 / 10000, 64008 / 100000000),
          (252 / 10000, 64008 / 100000000), (376 / 10000, 143002 / 100000000)] b a = false) :=
  ⟨sortedSel_stC6, c6_tie_order _ 3 0 [0, 2, 1, 3] sortedSel_stC6⟩

/-! ## The byte-wise string order (for the tier-1 dedup) -/

lemma charListLt_irrefl (l : List Char) : charListLt l l = false := by
  induction l with
  | nil => rfl
  | cons a t ih => simp [charListLt, lt_irrefl, ih]

lemma charListLt_asymm : ∀ {l₁ l₂ : List Char},
    charListLt l₁ l₂ = true → charListLt l₂ l₁ = false
  | [], [], h => by simp [charListLt] at h
  | [], _ :: _, _ => rfl
  | _ :: _, [], h => by simp [charListLt] at h
  | a :: as, b :: bs, h => by
    unfold charListLt at h ⊢
    by_cases hab : a < b
    · rw [if_neg (asymm hab), if_pos hab]
    · rw [if_neg hab] at h
      by_cases hba : b < a
      · rw [if_pos hba] at h
        exact absurd h (by simp)
      · rw [if_neg hba, if_neg hab]
        rw [if_neg hba] at h
        exact charListLt_asymm h

lemma charListLt_trans : ∀ {l₁ l₂ l₃ : List Char},
    charListLt l₁ l₂ = true → charListLt l₂ l₃ = true → charListLt l₁ l₃ = true
  | [], l₂, [], _, h2 => by cases l₂ <;> simp [charListLt] at h2
  | [], _, _ :: _, _, _ => rfl
  | _ :: _, [], _, h1, _ => by simp [charListLt] at h1
  | _ :: _, _ :: _, [], _, h2 => by simp [charListLt] at h2
  | a :: as, b :: bs, c :: cs, h1, h2 => by
    unfold charListLt at h1 h2 ⊢
    by_cases hab : a < b
    · by_cases hbc : b < c
      · rw [if_pos (lt_trans hab hbc)]
      · rw [if_neg hbc] at h2
        by_cases hcb : c < b
        · rw [if_pos hcb] at h2
          exact absurd h2 (by simp)
        · have hbceq : b = c := le_antisymm (not_lt.mp hcb) (not_lt.mp hbc)
          rw [if_pos (hbceq ▸ hab)]
    · rw [if_neg hab] at h1
      by_cases hba : b < a
      · rw [if_pos hba] at h1
        exact absurd h1 (by simp)
      · have habeq : a = b := le_antisymm (not_lt.mp hba) (not_lt.mp hab)
        rw [if_neg hba] at h1
        by_cases hbc : b < c
        · rw [if_pos (habeq ▸ hbc)]
        · rw [if_neg hbc] at h2
          by_cases hcb : c < b
          · rw [if_pos hcb] at h2
            exact absurd h2 (by simp)
          · have hbceq : b = c := le_antisymm (not_lt.mp hcb) (not_lt.mp hbc)
            rw [if_neg hcb] at h2
            rw [habeq, hbceq, if_neg (lt_irrefl c), if_neg (lt_irrefl c)]
            exact charListLt_trans h1 h2

lemma charListLt_conn : ∀ {l₁ l₂ : List Char},
    charListLt l₁ l₂ = false → charListLt l₂ l₁ = false → l₁ = l₂
  | [], [], _, _ => rfl
  | [], _ :: _, h1, _ => by simp [charListLt] at h1
  | _ :: _, [], _, h2 => by simp [charListLt] at h2
  | a :: as, b :: bs, h1, h2 => by
    unfold charListLt at h1 h2
    by_cases hab : a < b
    · rw [if_pos hab] at h1
      exact absurd h1 (by simp)
    · by_cases hba : b < a
      · rw [if_pos hba] at h2
        exact absurd h2 (by simp)
      · have habeq : a = b := le_antisymm (not_lt.mp hba) (not_lt.mp hab)
        rw [if_neg hab, if_neg hba] at h1
        rw [if_neg hba, if_neg hab] at h2
        rw [habeq, charListLt_conn h1 h2]

lemma strLt_irrefl (a : String) : strLt a a = false := charListLt_irrefl a.data

lemma strLt_asymm {a b : String} (h : strLt a b = true) : strLt b a = false :=
  charListLt_asymm h

lemma strLt_trans {a b c : String} (h1 : strLt a b = true) (h2 : strLt b c = true) :
    strLt a c = true :=
  charListLt_trans h1 h2

lemma strLt_conn {a b : String} (h1 : strLt a b = false) (h2 : strLt b a = false) :
    a = b :=
  String.ext (charListLt_conn h1 h2)

lemma strLe_trans : ∀ (a b c : String),
    (! strLt b a) = true → (! strLt c b) = true → (! strLt c a) = true := by
  intro a b c h1 h2
  simp only [Bool.not_eq_true'] at h1 h2 ⊢
  by_cases hca : strLt c a = true
  · by_cases hbc : strLt b c = true
    · exact absurd (strLt_trans hbc hca) (by simp [h1])
    · have : b = c := strLt_conn (by simpa using hbc) h2
      subst this
      exact absurd hca (by simp [h1])
  · simpa using hca

lemma strLe_total : ∀ (a b : String), ((! strLt b a) || (! strLt a b)) = true := by
  intro a b
  by_cases h : strLt b a = true
  · simp [strLt_asymm h]
  · simp [h]

/-! ## Properties of the sort-based dedup -/

lemma dedupAdjacent_subset : ∀ l : List String, dedupAdjacent l ⊆ l := by
  intro l
  induction l with
  | nil => simp [dedupAdjacent]
  | cons a t ih =>
    unfold dedupAdjacent
    cases hdd : dedupAdjacent t with
    | nil => intro x hx; simp at hx; simp [hx]
    | cons b t' =>
      rw [hdd] at ih
      show (if a = b then b :: t' else a :: b :: t') ⊆ a :: t
      by_cases hab : a = b
      · rw [if_pos hab]
        exact fun x hx => List.mem_cons_of_mem a (ih hx)
      · rw [if_neg hab]
        intro x hx
        rcases List.mem_cons.mp hx with rfl | hx'
        · exact List.mem_cons_self x t
        · exact List.mem_cons_of_mem a (ih hx')

lemma dedupAdjacent_pairwise (l : List String)
    (hs : l.Pairwise (fun a b => strLt b a = false)) :
    (dedupAdjacent l).Pairwise (fun a b => strLt a b = true) := by
  induction l with
  | nil => simp [dedupAdjacent]
  | cons a t ih =>
    obtain ⟨ha, ht⟩ := List.pairwise_cons.mp hs
    have iht := ih ht
    unfold dedupAdjacent
    cases hdd : dedupAdjacent t with
    | nil => simp
    | cons b t' =>
      rw [hdd] at iht
      show List.Pairwise (fun a b => strLt a b = true)
        (if a = b then b :: t' else a :: b :: t')
      by_cases hab : a = b
      · rw [if_pos hab]
        exact iht
      · rw [if_neg hab]
        refine List.pairwise_cons.mpr ⟨?_, iht⟩
        intro x hx
        have hxt : x ∈ t := (hdd ▸ dedupAdjacent_subset t) hx
        have hxa : strLt x a = false := ha x hxt
        by_cases hax : strLt a x = true
        · exact hax
        · exfalso
          have hxeq : a = x := strLt_conn (by simpa using hax) hxa
          have hbt : b ∈ t := (hdd ▸ dedupAdjacent_subset t) (List.mem_cons_self b t')
          rcases List.mem_cons.mp hx with rfl | hx'
          · exact hab hxeq
          · have hbx : strLt b x = true :=
              (List.pairwise_cons.mp iht).1 x hx'
            have : strLt b a = false := ha b hbt
            rw [← hxeq] at hbx
            simp [hbx] at this

lemma pairwise_strLt_nodup {l : List String}
    (h : l.Pairwise (fun a b => strLt a b = true)) : l.Nodup :=
  h.imp (fun hab => by rintro rfl; simp [strLt_irrefl] at hab)

lemma mergeSort_strLe_pairwise (l : List String) :
    (l.mergeSort (fun a b => ! strLt b a)).Pairwise (fun a b => strLt b a = false) := by
  have h := @List.sorted_mergeSort String (fun a b => ! strLt b a)
    (fun a b c h1 h2 => strLe_trans a b c h1 h2) (fun a b => strLe_total a b) l
  exact h.imp (fun hab => by simpa using hab)

lemma sortedDedupTake_eq (l : List String) (topN : ℕ) :
    sortedDedupTake l topN
      = (dedupAdjacent (l.mergeSort (fun a b => ! strLt b a))).take topN ∨
    (sortedDedupTake l topN = dedupAdjacent (l.mergeSort (fun a b => ! strLt b a)) ∧
      (dedupAdjacent (l.mergeSort (fun a b => ! strLt b a))).length ≤ topN) := by
  unfold sortedDedupTake
  by_cases h : topN < (dedupAdjacent (l.mergeSort (fun a b => ! strLt b a))).length
  · rw [if_pos h]
    exact Or.inl rfl
  · rw [if_neg h]
    exact Or.inr ⟨rfl, by omega⟩

lemma sortedDedupTake_pairwise (l : List String) (topN : ℕ) :
    (sortedDedupTake l topN).Pairwise (fun a b => strLt a b = true) := by
  have hdd := dedupAdjacent_pairwise _ (mergeSort_strLe_pairwise l)
  rcases sortedDedupTake_eq l topN with h | ⟨h, _⟩
  · rw [h]
    exact hdd.sublist (List.take_sublist _ _)
  · rw [h]
    exact hdd

lemma sortedDedupTake_subset (l : List String) (topN : ℕ) :
    ∀ x ∈ sortedDedupTake l topN, x ∈ l := by
  intro x hx
  have h1 : x ∈ dedupAdjacent (l.mergeSort (fun a b => ! strLt b a)) := by
    rcases sortedDedupTake_eq l topN with h | ⟨h, _⟩
    · exact List.take_subset _ _ (h ▸ hx)
    · exact h ▸ hx
  have h2 := dedupAdjacent_subset _ h1
  simpa using h2

lemma sortedDedupTake_length (l : List String) (topN : ℕ) :
    (sortedDedupTake l topN).length ≤ topN := by
  rcases sortedDedupTake_eq l topN with h | ⟨h, hle⟩
  · rw [h]
    exact List.length_take_le _ _
  · rw [h]
    exact hle

/-! ## Claim C3: the personalized tier -/

/-- C3 (amended): when the profile exists, the recent-interaction list is
non-empty and the gathered similar products are non-empty, tier 1 returns the
union of the per-interaction lookups de-duplicated by SORTING the ids in
ascending lexicographic order (`std::sort` + `std::unique`, 2.cpp:466-467) and
truncated to at most `topN` ids: the result is strictly id-sorted,
duplicate-free, at most `topN` long, and drawn from the union — first-seen
order across the lookups is NOT preserved (see `c3_counterexample`). -/
theorem c3_personalized_tier (customers : List (String × String)) (cid : String)
    (recent : List String) (sim : String → List String) (segRecs : String → List String)
    (fb : List String) (topN : ℕ) (row : String × String)
    (hfind : customers.find? (fun r => r.1 == cid) = some row)
    (hrec : recent ≠ []) (hjoin : (recent.map sim).flatten ≠ []) :
    getRecommendations customers cid recent sim segRecs fb topN
        = sortedDedupTake ((recent.map sim).flatten) topN ∧
    (getRecommendations customers cid recent sim segRecs fb topN).Pairwise
        (fun a b => strLt a b = true) ∧
    (getRecommendations customers cid recent sim segRecs fb topN).Nodup ∧
    (getRecommendations customers cid recent sim segRecs fb topN).length ≤ topN ∧
    ∀ x ∈ getRecommendations customers cid recent sim segRecs fb topN,
      x ∈ (recent.map sim).flatten := by
  have heq : getRecommendations customers cid recent sim segRecs fb topN
      = sortedDedupTake ((recent.map sim).flatten) topN := by
    unfold getRecommendations
    rw [hfind]
    simp only []
    rw [if_pos ⟨hrec, hjoin⟩]
  refine ⟨heq, ?_, ?_, ?_, ?_⟩
  · rw [heq]
    exact sortedDedupTake_pairwise _ _
  · rw [heq]
    exact pairwise_strLt_nodup (sortedDedupTake_pairwise _ _)
  · rw [heq]
    exact sortedDedupTake_length _ _
  · rw [heq]
    exact sortedDedupTake_subset _ _

/-- C3 counterexample: customer `C1`'s one recent interaction is the query
`P1` on `stC3`; the conforming lookup result is `["P3", "P2"]` (`P3` is
strictly more similar), so the spec's first-seen-order union is
`["P3", "P2"]`, but the code returns the lexicographically sorted
`["P2", "P3"]`. -/
theorem c3_counterexample :
    getSimilarProductsRel stC3 "P1" 3 (simLookupC3 "P1") ∧
    getRecommendations [("C1", "segment_1")] "C1" ["P1"] simLookupC3 (fun _ => []) [] 3
      = ["P2", "P3"] ∧
    specPersonalizedTier (["P1"].map simLookupC3) 3 = ["P3", "P2"] ∧
    (["P2", "P3"] : List String) ≠ ["P3", "P2"] := by
  refine ⟨?_, ?_, ?_, by decide⟩
  · show getSimilarProductsRel stC3 "P1" 3 ["P3", "P2"]
    exact rel_stC3
  · show getRecommendations [("C1", "segment_1")] "C1" ["P1"] simLookupC3 (fun _ => []) [] 3
      = ["P2", "P3"]
    unfold getRecommendations
    rw [show ([("C1", "segment_1")].find? (fun r => r.1 == "C1"))
        = some ("C1", "segment_1") from by decide]
    simp only [simLookupC3]
    rw [if_pos (⟨by decide, by decide⟩ :
      (["P1"] : List String) ≠ [] ∧ (["P1"].map simLookupC3).flatten ≠ [])]
    show sortedDedupTake ["P3", "P2"] 3 = ["P2", "P3"]
    unfold sortedDedupTake
    rw [show (["P3", "P2"].mergeSort (fun a b => ! strLt b a)) = ["P2", "P3"] from by
      simp [List.mergeSort, List.merge, show strLt "P2" "P3" = true from by decide]]
    rw [show dedupAdjacent ["P2", "P3"] = ["P2", "P3"] from by decide]
    decide
  · decide

/-- C3 witness: the amended theorem at the same concrete scenario. -/
theorem c3_personalized_tier_witness :
    ([("C1", "segment_1")].find? (fun r => r.1 == "C1") = some ("C1", "segment_1")) ∧
    ((["P1"] : List String) ≠ []) ∧
    ((["P1"].map simLookupC3).flatten ≠ []) ∧
    (getRecommendations [("C1", "segment_1")] "C1" ["P1"] simLookupC3 (fun _ => []) [] 3
        = sortedDedupTake ((["P1"].map simLookupC3).flatten) 3 ∧
      (getRecommendations [("C1", "segment_1")] "C1" ["P1"] simLookupC3 (fun _ => []) [] 3).Pairwise
        (fun a b => strLt a b = true) ∧
      (getRecommendations [("C1", "segment_1")] "C1" ["P1"] simLookupC3 (fun _ => []) [] 3).Nodup ∧
      (getRecommendations [("C1", "segment_1")] "C1" ["P1"] simLookupC3 (fun _ => []) [] 3).length
          ≤ 3 ∧
      ∀ x ∈ getRecommendations [("C1", "segment_1")] "C1" ["P1"] simLookupC3 (fun _ => []) [] 3,
        x ∈ (["P1"].map simLookupC3).flatten) :=
  ⟨by decide, by decide, by decide,
    c3_personalized_tier [("C1", "segment_1")] "C1" ["P1"] simLookupC3 (fun _ => []) [] 3
      ("C1", "segment_1") (by decide) (by decide) (by decide)⟩

/-! ## Claim C4: cold-start fallback -/

/-- C4: a customer id with no profile row makes `getRecommendations` return
the popularity fallback immediately (2.cpp:451), skipping the personalized and
segment tiers; the fallback is the id projection of the first `topN` rows of a
popularity-descending ordering of the products table. -/
theorem c4_cold_start (customers : List (String × String)) (cid : String)
    (recent : List String) (sim : String → List String) (segRecs : String → List String)
    (products : List (String × ℚ)) (fb : List String) (topN : ℕ)
    (habs : ∀ r ∈ customers, r.1 ≠ cid) (hfb : getFallbackRel products topN fb) :
    getRecommendations customers cid recent sim segRecs fb topN = fb ∧
    fb.length ≤ topN := by
  have hfind : customers.find? (fun r => r.1 == cid) = none := by
    apply List.find?_eq_none.mpr
    intro r hr
    simpa using habs r hr
  constructor
  · unfold getRecommendations
    rw [hfind]
  · obtain ⟨ord, _, _, hres⟩ := hfb
    rw [hres]
    exact le_trans (List.length_take_le _ _) (le_refl _)

/-- C4 witness: customer `C9` is absent; the fallback is the popularity-sorted
id list `["P2", "P1"]` of a two-product table. -/
theorem c4_cold_start_witness :
    (∀ r ∈ ([("C1", "segment_0")] : List (String × String)), r.1 ≠ "C9") ∧
    getFallbackRel [("P1", 5), ("P2", 9)] 2 ["P2", "P1"] ∧
    (getRecommendations [("C1", "segment_0")] "C9" [] (fun _ => []) (fun _ => [])
        ["P2", "P1"] 2 = ["P2", "P1"] ∧
      (["P2", "P1"] : List String).length ≤ 2) := by
  have hfb : getFallbackRel [("P1", 5), ("P2", 9)] 2 ["P2", "P1"] := by
    refine ⟨[("P2", 9), ("P1", 5)], List.Perm.swap _ _ _, ?_, rfl⟩
    refine List.pairwise_cons.mpr ⟨?_, by simp⟩
    intro b hb
    simp at hb
    rw [hb]
    norm_num
  exact ⟨by decide, hfb,
    c4_cold_start [("C1", "segment_0")] "C9" [] (fun _ => []) (fun _ => [])
      [("P1", 5), ("P2", 9)] ["P2", "P1"] 2 (by decide) hfb⟩

/-! ## The first-minimum scan -/

lemma pickBest_mem (f : ℕ → ℚ) : ∀ (js : List ℕ) (b : ℕ), pickBest f js b ∈ b :: js := by
  intro js
  induction js with
  | nil => intro b; simp [pickBest]
  | cons j t ih =>
    intro b
    unfold pickBest
    by_cases h : f j < f b
    · rw [if_pos h]
      rcases List.mem_cons.mp (ih j) with h' | h'
      · simp [h']
      · simp [List.mem_cons_of_mem, h']
    · rw [if_neg h]
      rcases List.mem_cons.mp (ih b) with h' | h'
      · simp [h']
      · simp [List.mem_cons_of_mem, h']

lemma pickBest_le (f : ℕ → ℚ) : ∀ (js : List ℕ) (b a : ℕ), a ∈ b :: js →
    f (pickBest f js b) ≤ f a := by
  intro js
  induction js with
  | nil =>
    intro b a ha
    simp at ha
    simp [pickBest, ha]
  | cons j t ih =>
    intro b a ha
    unfold pickBest
    by_cases h : f j < f b
    · rw [if_pos h]
      rcases List.mem_cons.mp ha with rfl | ha'
      · exact le_trans (ih j j (List.mem_cons_self _ _)) (le_of_lt h)
      · exact ih j a ha'
    · rw [if_neg h]
      rcases List.mem_cons.mp ha with rfl | ha'
      · exact ih a a (List.mem_cons_self _ _)
      · rcases List.mem_cons.mp ha' with rfl | ha''
        · exact le_trans (ih b b (List.mem_cons_self _ _)) (not_lt.mp h)
        · exact ih b a (List.mem_cons_of_mem _ ha'')

lemma pickBest_lt_of_ne (f : ℕ → ℚ) : ∀ (js : List ℕ) (b : ℕ), pickBest f js b ≠ b →
    f (pickBest f js b) < f b := by
  intro js
  induction js with
  | nil => intro b h; simp [pickBest] at h
  | cons j t ih =>
    intro b hne
    unfold pickBest at hne ⊢
    by_cases h : f j < f b
    · rw [if_pos h] at hne ⊢
      by_cases hj : pickBest f t j = j
      · rw [hj]; exact h
      · exact lt_trans (ih j hj) h
    · rw [if_neg h] at hne ⊢
      exact ih b hne

lemma pickBest_first (f : ℕ → ℚ) : ∀ (js : List ℕ) (b : ℕ),
    (b :: js).Pairwise (· < ·) → ∀ a ∈ b :: js,
    f a ≤ f (pickBest f js b) → pickBest f js b ≤ a := by
  intro js
  induction js with
  | nil =>
    intro b _ a ha _
    simp at ha
    simp [pickBest, ha]
  | cons j t ih =>
    intro b hsort a ha hle
    unfold pickBest at hle ⊢
    by_cases h : f j < f b
    · rw [if_pos h] at hle ⊢
      have hsort' : (j :: t).Pairwise (· < ·) := hsort.of_cons
      rcases List.mem_cons.mp ha with rfl | ha'
      · exfalso
        have h1 : f (pickBest f t j) ≤ f j := pickBest_le f t j j (List.mem_cons_self _ _)
        exact absurd (lt_of_le_of_lt hle (lt_of_le_of_lt h1 h)) (lt_irrefl _)
      · exact ih j hsort' a ha' hle
    · rw [if_neg h] at hle ⊢
      have hsort' : (b :: t).Pairwise (· < ·) :=
        hsort.sublist (List.cons_sublist_cons.mpr (List.sublist_cons_self _ _))
      rcases List.mem_cons.mp ha with rfl | ha'
      · exact ih a hsort' a (List.mem_cons_self _ _) hle
      · rcases List.mem_cons.mp ha' with rfl | ha''
        · by_cases hres : pickBest f t b = b
          · rw [hres]
            exact le_of_lt ((List.pairwise_cons.mp hsort).1 a (List.mem_cons_self _ _))
          · exfalso
            have h1 : f (pickBest f t b) < f b := pickBest_lt_of_ne f t b hres
            have h2 : f b ≤ f a := not_lt.mp h
            exact absurd (lt_of_le_of_lt hle (lt_of_lt_of_le h1 h2)) (lt_irrefl _)
        · exact ih b hsort' a (List.mem_cons_of_mem _ ha'') hle

/-! ## Properties of the per-point assignment -/

lemma assignPoint_lt {d : ℕ} (cents : List (Point d)) (x : Point d) (h : cents ≠ []) :
    assignPoint cents x < cents.length := by
  unfold assignPoint
  rcases List.mem_cons.mp
      (pickBest_mem (fun j => sqDist x (cents.getD j (zeroPoint d)))
        (List.range cents.length) 0) with h0 | hr
  · rw [h0]
    exact List.length_pos.mpr h
  · exact List.mem_range.mp hr

lemma assignPoint_le {d : ℕ} (cents : List (Point d)) (x : Point d) (j : ℕ)
    (hj : j < cents.length) :
    sqDist x (cents.getD (assignPoint cents x) (zeroPoint d))
      ≤ sqDist x (cents.getD j (zeroPoint d)) := by
  unfold assignPoint
  exact pickBest_le (fun j => sqDist x (cents.getD j (zeroPoint d)))
    (List.range cents.length) 0 j (List.mem_cons_of_mem _ (List.mem_range.mpr hj))

lemma assignPoint_first {d : ℕ} (cents : List (Point d)) (x : Point d) (j : ℕ)
    (hj : j < cents.length)
    (hle : sqDist x (cents.getD j (zeroPoint d))
      ≤ sqDist x (cents.getD (assignPoint cents x) (zeroPoint d))) :
    assignPoint cents x ≤ j := by
  obtain ⟨k', hk'⟩ : ∃ k', cents.length = k' + 1 := ⟨cents.length - 1, by omega⟩
  unfold assignPoint at hle ⊢
  rw [hk', List.range_succ_eq_map] at hle ⊢
  simp only [pickBest, ite_self] at hle ⊢
  have hsort : ((0 : ℕ) :: (List.range k').map Nat.succ).Pairwise (· < ·) := by
    refine List.pairwise_cons.mpr ⟨?_, ?_⟩
    · intro m hm
      obtain ⟨i, _, rfl⟩ := List.mem_map.mp hm
      exact Nat.succ_pos i
    · rw [List.pairwise_map]
      exact (List.pairwise_lt_range k').imp (fun h => Nat.succ_lt_succ h)
  have hamem : j ∈ (0 : ℕ) :: (List.range k').map Nat.succ := by
    rcases j with _ | j'
    · exact List.mem_cons_self _ _
    · refine List.mem_cons_of_mem _ (List.mem_map.mpr ⟨j', List.mem_range.mpr ?_, rfl⟩)
      omega
  exact pickBest_first _ _ _ hsort j hamem hle

/-! ## Sum bookkeeping for the k-means potential -/

lemma list_sum_map_add {α : Type} (l : List α) (u v : α → ℚ) :
    (l.map (fun x => u x + v x)).sum = (l.map u).sum + (l.map v).sum := by
  induction l with
  | nil => simp
  | cons a t ih =>
    simp only [List.map_cons, List.sum_cons, ih]
    ring

lemma sum_ite_eq_point (k j : ℕ) (hj : j < k) (c : ℚ) :
    ((List.range k).map (fun i => if j = i then c else 0)).sum = c := by
  induction k with
  | zero => omega
  | succ n ih =>
    rw [List.range_succ, List.map_append, List.sum_append]
    by_cases h : j = n
    · subst h
      have h0 : ((List.range j).map (fun i => if j = i then c else 0)).sum = 0 := by
        apply List.sum_eq_zero
        intro x hx
        obtain ⟨i, hi, rfl⟩ := List.mem_map.mp hx
        rw [if_neg]
        intro hji
        rw [hji] at hi
        exact absurd (List.mem_range.mp hi) (lt_irrefl _)
      simp [h0]
    · have hj' : j < n := by omega
      simp [ih hj', h]

lemma list_sum_finset_sum_comm {d : ℕ} {α : Type} (l : List α) (g : α → Fin d → ℚ) :
    (l.map (fun x => ∑ i, g x i)).sum = ∑ i, (l.map (fun x => g x i)).sum := by
  induction l with
  | nil => simp
  | cons a t ih =>
    simp only [List.map_cons, List.sum_cons, ih]
    rw [Finset.sum_add_distrib]

lemma oneD_identity (L : List ℚ) (m c : ℚ) :
    (L.map (fun t => (t - c) ^ 2)).sum
      = (L.map (fun t => (t - m) ^ 2)).sum + 2 * (m - c) * (L.sum - L.length * m)
        + L.length * (m - c) ^ 2 := by
  induction L with
  | nil => simp
  | cons a t ih =>
    simp only [List.map_cons, List.sum_cons, List.length_cons, ih]
    push_cast
    ring

lemma oneD_mean_le (L : List ℚ) (hL : L ≠ []) (c : ℚ) :
    (L.map (fun t => (t - L.sum / L.length) ^ 2)).sum
      ≤ (L.map (fun t => (t - c) ^ 2)).sum := by
  have hlen : (L.length : ℚ) ≠ 0 := by
    simp only [ne_eq, Nat.cast_eq_zero, List.length_eq_zero]
    exact hL
  have hzero : L.sum - L.length * (L.sum / L.length) = 0 := by
    field_simp
  have hid := oneD_identity L (L.sum / L.length) c
  rw [hzero] at hid
  have hnn : 0 ≤ (L.length : ℚ) * (L.sum / L.length - c) ^ 2 :=
    mul_nonneg (Nat.cast_nonneg _) (sq_nonneg _)
  linarith

lemma meanPoint_le {d : ℕ} (P : List (Point d)) (hP : P ≠ []) (c : Point d) :
    (P.map (fun x => sqDist x (meanPoint P))).sum ≤ (P.map (fun x => sqDist x c)).sum := by
  unfold sqDist
  rw [list_sum_finset_sum_comm, list_sum_finset_sum_comm]
  apply Finset.sum_le_sum
  intro i _
  have hre : ∀ y : Point d,
      (P.map (fun x => (x i - y i) ^ 2)).sum
        = ((P.map (fun x => x i)).map (fun t => (t - y i) ^ 2)).sum := by
    intro y
    rw [List.map_map]
    rfl
  rw [hre, hre]
  have hmean : meanPoint P i
      = (P.map (fun x => x i)).sum / (P.map (fun x => x i)).length := by
    unfold meanPoint
    rw [List.length_map]
  rw [hmean]
  apply oneD_mean_le
  simpa using hP

lemma list_fiber_sum {d : ℕ} (L : List (Point d × ℕ)) (f : Point d × ℕ → ℚ) (k : ℕ)
    (h : ∀ p ∈ L, p.2 < k) :
    ((List.range k).map
      (fun j => ((L.filter (fun p => p.2 == j)).map f).sum)).sum = (L.map f).sum := by
  induction L with
  | nil => simp
  | cons p t ih =>
    have hp : p.2 < k := h p (List.mem_cons_self _ _)
    have iht := ih (fun q hq => h q (List.mem_cons_of_mem _ hq))
    have hsplit : ∀ j : ℕ, ((List.filter (fun q => q.2 == j) (p :: t)).map f).sum
        = (if p.2 = j then f p else 0)
          + ((List.filter (fun q => q.2 == j) t).map f).sum := by
      intro j
      by_cases hj : p.2 = j
      · rw [List.filter_cons_of_pos (by simpa using hj), if_pos hj]
        simp
      · rw [List.filter_cons_of_neg (by simpa using hj), if_neg hj]
        simp
    rw [List.map_congr_left (fun j _ => hsplit j), list_sum_map_add,
      sum_ite_eq_point k p.2 hp (f p), iht]
    simp

lemma getD_map_range {α : Type} (f : ℕ → α) (k j : ℕ) (hj : j < k) (z : α) :
    ((List.range k).map f).getD j z = f j := by
  rw [List.getD_eq_getElem?_getD, List.getElem?_map, List.getElem?_range hj]
  rfl

lemma cost_regroup {d : ℕ} (features : List (Point d)) (A : List ℕ) (C : List (Point d))
    (k : ℕ) (h : ∀ a ∈ A, a < k) :
    cost features A C
      = ((List.range k).map (fun j =>
          ((clusterMembers features A j).map
            (fun x => sqDist x (C.getD j (zeroPoint d)))).sum)).sum := by
  unfold cost clusterMembers
  rw [← list_fiber_sum (features.zip A)
    (fun p => sqDist p.1 (C.getD p.2 (zeroPoint d))) k
    (fun p hp => h p.2 (List.of_mem_zip hp).2)]
  apply congrArg
  apply List.map_congr_left
  intro j _
  rw [List.map_map]
  apply congrArg
  apply List.map_congr_left
  intro p hp
  have : p.2 = j := by simpa using (List.mem_filter.mp hp).2
  simp [Function.comp, this]

lemma cost_update_le {d : ℕ} (features : List (Point d)) (A : List ℕ)
    (C : List (Point d)) (k : ℕ) (hA : ∀ a ∈ A, a < k) (hC : C.length = k) :
    cost features A (updateCentroids k features A) ≤ cost features A C := by
  rw [cost_regroup features A _ k hA, cost_regroup features A C k hA]
  apply List.sum_le_sum
  intro j hj
  by_cases hm : clusterMembers features A j = []
  · rw [hm]
    simp
  · have hupd : (updateCentroids k features A).getD j (zeroPoint d)
        = meanPoint (clusterMembers features A j) := by
      unfold updateCentroids
      rw [getD_map_range _ k j (List.mem_range.mp hj)]
      rw [if_neg (by simpa using hm)]
    rw [hupd]
    exact meanPoint_le _ hm _

lemma cost_assignAll_eq {d : ℕ} (features C : List (Point d)) :
    cost features (assignAll C features) C
      = (features.map (fun x => sqDist x (C.getD (assignPoint C x) (zeroPoint d)))).sum := by
  unfold cost assignAll
  induction features with
  | nil => rfl
  | cons a t ih =>
    simp only [List.map_cons, List.zip_cons_cons, List.sum_cons, ih]

lemma map_zip_fst_sum {d : ℕ} (features : List (Point d)) (A : List ℕ)
    (h : features.length ≤ A.length) (g : Point d → ℚ) :
    ((features.zip A).map (fun p => g p.1)).sum = (features.map g).sum := by
  have : (features.zip A).map (fun p => g p.1)
      = ((features.zip A).map Prod.fst).map g := by
    rw [List.map_map]
    rfl
  rw [this, List.map_fst_zip _ _ h]

lemma cost_assign_le {d : ℕ} (features : List (Point d)) (A : List ℕ)
    (C : List (Point d)) (hlen : A.length = features.length)
    (hA : ∀ a ∈ A, a < C.length) :
    cost features (assignAll C features) C ≤ cost features A C := by
  rw [cost_assignAll_eq, ← map_zip_fst_sum features A (by omega)]
  unfold cost
  apply List.sum_le_sum
  intro p hp
  exact assignPoint_le C p.1 p.2 (hA p.2 (List.of_mem_zip hp).2)

lemma eq_of_sum_map_eq {α : Type} (l : List α) (f g : α → ℚ)
    (hle : ∀ x ∈ l, f x ≤ g x) (heq : (l.map f).sum = (l.map g).sum) :
    ∀ x ∈ l, f x = g x := by
  induction l with
  | nil => simp
  | cons a t ih =>
    simp only [List.map_cons, List.sum_cons] at heq
    have h1 : f a ≤ g a := hle a (List.mem_cons_self _ _)
    have h2 : (t.map f).sum ≤ (t.map g).sum :=
      List.sum_le_sum (fun x hx => hle x (List.mem_cons_of_mem _ hx))
    have hfa : f a = g a := by linarith
    have hts : (t.map f).sum = (t.map g).sum := by linarith
    intro x hx
    rcases List.mem_cons.mp hx with rfl | hx'
    · exact hfa
    · exact ih (fun y hy => hle y (List.mem_cons_of_mem _ hy)) hts x hx'

lemma sum_lt_of_pointwise_le : ∀ (A' A : List ℕ), A'.length = A.length →
    (∀ i, i < A.length → A'.getD i 0 ≤ A.getD i 0) → A' ≠ A → A'.sum < A.sum := by
  intro A'
  induction A' with
  | nil =>
    intro A hlen _ hne
    cases A with
    | nil => exact absurd rfl hne
    | cons a t => simp at hlen
  | cons b s ih =>
    intro A hlen hle hne
    cases A with
    | nil => simp at hlen
    | cons a t =>
      have hba : b ≤ a := by
        have := hle 0 (by simp)
        simpa using this
      have hlen' : s.length = t.length := by simpa using hlen
      by_cases hst : s = t
      · subst hst
        have hne' : b ≠ a := fun h => hne (by rw [h])
        have hba' : b < a := lt_of_le_of_ne hba hne'
        simp only [List.sum_cons]
        omega
      · have hs : s.sum < t.sum := by
          apply ih t hlen' ?_ hst
          intro i hi
          have := hle (i + 1) (by simpa using Nat.succ_lt_succ hi)
          simpa using this
        simp only [List.sum_cons]
        omega

/-! ## The potential decreases along the loop -/

lemma kmeans_G_decrease {d : ℕ} (features : List (Point d)) (k : ℕ) (A : List ℕ)
    (hk : 0 < k) (hlen : A.length = features.length) (hA : ∀ a ∈ A, a < k)
    (hne : assignAll (updateCentroids k features A) features ≠ A) :
    cost features (assignAll (updateCentroids k features A) features)
        (updateCentroids k features (assignAll (updateCentroids k features A) features))
      < cost features A (updateCentroids k features A)
    ∨ (cost features (assignAll (updateCentroids k features A) features)
          (updateCentroids k features (assignAll (updateCentroids k features A) features))
        = cost features A (updateCentroids k features A)
      ∧ (assignAll (updateCentroids k features A) features).sum < A.sum) := by
  set C := updateCentroids k features A with hC
  have hClen : C.length = k := by
    rw [hC]
    unfold updateCentroids
    simp
  have hCne : C ≠ [] := by
    intro h
    rw [h] at hClen
    simp at hClen
    omega
  set A' := assignAll C features with hAssignEq
  have h1 : cost features A' C ≤ cost features A C :=
    cost_assign_le features A C hlen (fun a ha => hClen ▸ hA a ha)
  have hA'lt : ∀ a ∈ A', a < k := by
    intro a ha
    obtain ⟨x, _, rfl⟩ := List.mem_map.mp ha
    exact hClen ▸ assignPoint_lt C x hCne
  have h2 : cost features A' (updateCentroids k features A') ≤ cost features A' C :=
    cost_update_le features A' C k hA'lt hClen
  by_cases hstrict : cost features A' (updateCentroids k features A')
      < cost features A C
  · exact Or.inl hstrict
  · right
    have heq2 : cost features A' (updateCentroids k features A') = cost features A C :=
      le_antisymm (le_trans h2 h1) (not_lt.mp hstrict)
    refine ⟨heq2, ?_⟩
    have heq1 : cost features A' C = cost features A C := le_antisymm h1 (by linarith)
    have hz : cost features A' C
        = ((features.zip A).map
            (fun p => sqDist p.1 (C.getD (assignPoint C p.1) (zeroPoint d)))).sum := by
      rw [hAssignEq, cost_assignAll_eq, ← map_zip_fst_sum features A (by omega)]
    have hsums : ((features.zip A).map
          (fun p => sqDist p.1 (C.getD (assignPoint C p.1) (zeroPoint d)))).sum
        = ((features.zip A).map
          (fun p => sqDist p.1 (C.getD p.2 (zeroPoint d)))).sum := by
      rw [← hz]
      exact heq1
    have hpt := eq_of_sum_map_eq (features.zip A)
      (fun p => sqDist p.1 (C.getD (assignPoint C p.1) (zeroPoint d)))
      (fun p => sqDist p.1 (C.getD p.2 (zeroPoint d)))
      (fun p hp => assignPoint_le C p.1 p.2 (hClen ▸ hA p.2 (List.of_mem_zip hp).2))
      hsums
    have hptw : ∀ i, i < A.length → A'.getD i 0 ≤ A.getD i 0 := by
      intro i hi
      have hif : i < features.length := by omega
      have hiz : i < (features.zip A).length := by
        rw [List.length_zip]
        omega
      have hmem : (features[i], A[i]) ∈ features.zip A := by
        have hg : (features.zip A)[i] = (features[i], A[i]) :=
          List.getElem_zip
        rw [← hg]
        exact List.getElem_mem hiz
      have heqp := hpt _ hmem
      have hAi : A[i] < C.length := hClen ▸ hA _ (List.getElem_mem hi)
      have hfirst := assignPoint_first C (features[i]) (A[i]) hAi
        (le_of_eq heqp.symm)
      have hA'i : A'.getD i 0 = assignPoint C (features[i]) := by
        rw [hAssignEq]
        unfold assignAll
        rw [List.getD_eq_getElem?_getD, List.getElem?_map, List.getElem?_eq_getElem hif]
        rfl
      have hAgd : A.getD i 0 = A[i] := by
        rw [List.getD_eq_getElem?_getD, List.getElem?_eq_getElem hi]
        rfl
      rw [hA'i, hAgd]
      exact hfirst
    apply sum_lt_of_pointwise_le A' A ?_ hptw hne
    rw [hAssignEq]
    unfold assignAll
    rw [List.length_map]
    omega

/-! ## Trajectory invariants and the termination argument -/

lemma measureLt_trans {a b c : ℚ × ℕ} (h1 : measureLt a b) (h2 : measureLt b c) :
    measureLt a c := by
  unfold measureLt at *
  rcases h1 with h1 | ⟨he1, hs1⟩ <;> rcases h2 with h2 | ⟨he2, hs2⟩
  · exact Or.inl (lt_trans h1 h2)
  · exact Or.inl (he2 ▸ h1)
  · exact Or.inl (he1 ▸ h2)
  · exact Or.inr ⟨he1.trans he2, lt_trans hs1 hs2⟩

lemma measureLt_irrefl (a : ℚ × ℕ) : ¬ measureLt a a := by
  unfold measureLt
  rintro (h | ⟨_, h⟩) <;> exact absurd h (lt_irrefl _)

lemma traj_fst_succ {d : ℕ} (features : List (Point d)) (k : ℕ) (C₀ : List (Point d))
    (t : ℕ) :
    (kmeansTraj features k C₀ (t + 1)).1 = assignAll (kmeansTraj features k C₀ t).2 features :=
  rfl

lemma traj_snd_eq {d : ℕ} (features : List (Point d)) (k : ℕ) (C₀ : List (Point d))
    (t : ℕ) (ht : 1 ≤ t) :
    (kmeansTraj features k C₀ t).2
      = updateCentroids k features (kmeansTraj features k C₀ t).1 := by
  cases t with
  | zero => omega
  | succ t' => rfl

lemma traj_fst_len {d : ℕ} (features : List (Point d)) (k : ℕ) (C₀ : List (Point d))
    (t : ℕ) : (kmeansTraj features k C₀ t).1.length = features.length := by
  cases t with
  | zero => simp [kmeansTraj]
  | succ t' => simp [kmeansTraj, kmeansIter, assignAll]

lemma traj_snd_len {d : ℕ} (features : List (Point d)) (k : ℕ) (C₀ : List (Point d))
    (hC₀ : C₀.length = k) (t : ℕ) : (kmeansTraj features k C₀ t).2.length = k := by
  cases t with
  | zero => simpa [kmeansTraj] using hC₀
  | succ t' => simp [kmeansTraj, kmeansIter, updateCentroids]

lemma traj_fst_lt {d : ℕ} (features : List (Point d)) (k : ℕ) (C₀ : List (Point d))
    (hk : 0 < k) (hC₀ : C₀.length = k) (t : ℕ) :
    ∀ a ∈ (kmeansTraj features k C₀ t).1, a < k := by
  cases t with
  | zero =>
    intro a ha
    simp only [kmeansTraj] at ha
    rw [List.eq_of_mem_replicate ha]
    exact hk
  | succ t' =>
    intro a ha
    have hlen := traj_snd_len features k C₀ hC₀ t'
    have hne : (kmeansTraj features k C₀ t').2 ≠ [] := by
      intro h
      rw [h] at hlen
      simp at hlen
      omega
    obtain ⟨x, _, rfl⟩ := List.mem_map.mp ha
    exact lt_of_lt_of_le (assignPoint_lt _ x hne) (le_of_eq hlen)

lemma traj_measure_step {d : ℕ} (features : List (Point d)) (k : ℕ) (C₀ : List (Point d))
    (hk : 0 < k) (hC₀ : C₀.length = k) (t : ℕ) (ht : 1 ≤ t)
    (hne : (kmeansTraj features k C₀ (t + 1)).1 ≠ (kmeansTraj features k C₀ t).1) :
    measureLt (kmeansMeasure features k (kmeansTraj features k C₀ (t + 1)).1)
      (kmeansMeasure features k (kmeansTraj features k C₀ t).1) := by
  have hstep : (kmeansTraj features k C₀ (t + 1)).1
      = assignAll (updateCentroids k features (kmeansTraj features k C₀ t).1) features := by
    rw [traj_fst_succ, traj_snd_eq features k C₀ t ht]
  rw [hstep] at hne ⊢
  exact kmeans_G_decrease features k (kmeansTraj features k C₀ t).1 hk
    (traj_fst_len features k C₀ t) (traj_fst_lt features k C₀ hk hC₀ t) hne

lemma traj_measure_chain {d : ℕ} (features : List (Point d)) (k : ℕ) (C₀ : List (Point d))
    (hk : 0 < k) (hC₀ : C₀.length = k) (s : ℕ) (hs : 1 ≤ s) :
    ∀ t, s < t →
    (∀ u, 1 ≤ u → u < t → (kmeansTraj features k C₀ (u + 1)).1 ≠ (kmeansTraj features k C₀ u).1) →
    measureLt (kmeansMeasure features k (kmeansTraj features k C₀ t).1)
      (kmeansMeasure features k (kmeansTraj features k C₀ s).1) := by
  intro t
  induction t with
  | zero => omega
  | succ t' ih =>
    intro hst hch
    by_cases hts : t' = s
    · subst hts
      exact traj_measure_step features k C₀ hk hC₀ t' hs (hch t' hs (by omega))
    · have h1 : s < t' := by omega
      have h2 := ih h1 (fun u hu hut => hch u hu (by omega))
      have h3 := traj_measure_step features k C₀ hk hC₀ t' (by omega)
        (hch t' (by omega) (by omega))
      exact measureLt_trans h3 h2

lemma stops_exists {d : ℕ} (features : List (Point d)) (k : ℕ) (C₀ : List (Point d))
    (hk : 0 < k) (hC₀ : C₀.length = k) :
    ∃ s ≤ k ^ features.length,
      (kmeansTraj features k C₀ (s + 1)).1 = (kmeansTraj features k C₀ s).1 := by
  by_contra hcon
  push_neg at hcon
  have hstate_ne : ∀ i j : ℕ, 1 ≤ i → i < j → j ≤ k ^ features.length + 1 →
      (kmeansTraj features k C₀ i).1 ≠ (kmeansTraj features k C₀ j).1 := by
    intro i j hi hij hj heq
    have hch : ∀ u, 1 ≤ u → u < j →
        (kmeansTraj features k C₀ (u + 1)).1 ≠ (kmeansTraj features k C₀ u).1 := by
      intro u _ hu
      exact hcon u (by omega)
    have := traj_measure_chain features k C₀ hk hC₀ i hi j hij hch
    rw [heq] at this
    exact measureLt_irrefl _ this
  have hinj : Function.Injective (fun i : Fin (k ^ features.length + 1) =>
      (fun m : Fin features.length =>
        (⟨(kmeansTraj features k C₀ (i.val + 1)).1.getD m.val 0 % k,
          Nat.mod_lt _ hk⟩ : Fin k))) := by
    intro i j hij
    by_contra hne
    have hfne : i.val ≠ j.val := fun h => hne (Fin.ext h)
    have hkey : ∀ a b : ℕ, a < b → b ≤ k ^ features.length →
        (fun m : Fin features.length =>
          (⟨(kmeansTraj features k C₀ (a + 1)).1.getD m.val 0 % k,
            Nat.mod_lt _ hk⟩ : Fin k))
          = (fun m : Fin features.length =>
          (⟨(kmeansTraj features k C₀ (b + 1)).1.getD m.val 0 % k,
            Nat.mod_lt _ hk⟩ : Fin k)) → False := by
      intro a b hab hb hfeq
      apply hstate_ne (a + 1) (b + 1) (by omega) (by omega) (by omega)
      apply List.ext_getElem
      · rw [traj_fst_len, traj_fst_len]
      · intro m hm1 hm2
        have hmn : m < features.length := by
          rw [traj_fst_len] at hm1
          exact hm1
        have := congrFun hfeq ⟨m, hmn⟩
        have hmod : (kmeansTraj features k C₀ (a + 1)).1.getD m 0 % k
            = (kmeansTraj features k C₀ (b + 1)).1.getD m 0 % k := by
          simpa using congrArg Fin.val this
        have hlta : (kmeansTraj features k C₀ (a + 1)).1.getD m 0 < k := by
          rw [List.getD_eq_getElem?_getD, List.getElem?_eq_getElem hm1]
          exact traj_fst_lt features k C₀ hk hC₀ (a + 1) _ (List.getElem_mem hm1)
        have hltb : (kmeansTraj features k C₀ (b + 1)).1.getD m 0 < k := by
          rw [List.getD_eq_getElem?_getD, List.getElem?_eq_getElem hm2]
          exact traj_fst_lt features k C₀ hk hC₀ (b + 1) _ (List.getElem_mem hm2)
        rw [Nat.mod_eq_of_lt hlta, Nat.mod_eq_of_lt hltb] at hmod
        have hga : (kmeansTraj features k C₀ (a + 1)).1.getD m 0
            = (kmeansTraj features k C₀ (a + 1)).1[m] := by
          rw [List.getD_eq_getElem?_getD, List.getElem?_eq_getElem hm1]
          rfl
        have hgb : (kmeansTraj features k C₀ (b + 1)).1.getD m 0
            = (kmeansTraj features k C₀ (b + 1)).1[m] := by
          rw [List.getD_eq_getElem?_getD, List.getElem?_eq_getElem hm2]
          rfl
        rw [hga, hgb] at hmod
        exact hmod
    rcases Nat.lt_or_ge i.val j.val with hlt | hge
    · exact hkey i.val j.val hlt (by omega) hij
    · have hlt' : j.val < i.val := by omega
      exact hkey j.val i.val hlt' (by omega) hij.symm
  have hcard := Fintype.card_le_of_injective _ hinj
  rw [Fintype.card_fin, Fintype.card_fun, Fintype.card_fin, Fintype.card_fin] at hcard
  omega

lemma kmeansLoop_eq_traj {d : ℕ} (features : List (Point d)) (k : ℕ)
    (C₀ : List (Point d)) :
    ∀ (s t fuel : ℕ),
    (kmeansTraj features k C₀ (t + s + 1)).1 = (kmeansTraj features k C₀ (t + s)).1 →
    (∀ u, u < s →
      (kmeansTraj features k C₀ (t + u + 1)).1 ≠ (kmeansTraj features k C₀ (t + u)).1) →
    s < fuel →
    kmeansLoop features k fuel (kmeansTraj features k C₀ t).1 (kmeansTraj features k C₀ t).2
      = (kmeansTraj features k C₀ (t + s + 1)).1 := by
  intro s
  induction s with
  | zero =>
    intro t fuel hstop _ hfuel
    obtain ⟨f', rfl⟩ : ∃ f', fuel = f' + 1 := ⟨fuel - 1, by omega⟩
    show (let A' := assignAll (kmeansTraj features k C₀ t).2 features
      if A' = (kmeansTraj features k C₀ t).1 then A'
      else kmeansLoop features k f' A' (updateCentroids k features A'))
        = (kmeansTraj features k C₀ (t + 0 + 1)).1
    have hA' : assignAll (kmeansTraj features k C₀ t).2 features
        = (kmeansTraj features k C₀ (t + 1)).1 := rfl
    simp only [hA']
    rw [if_pos (by simpa using hstop)]
  | succ s' ih =>
    intro t fuel hstop hmin hfuel
    obtain ⟨f', rfl⟩ : ∃ f', fuel = f' + 1 := ⟨fuel - 1, by omega⟩
    show (let A' := assignAll (kmeansTraj features k C₀ t).2 features
      if A' = (kmeansTraj features k C₀ t).1 then A'
      else kmeansLoop features k f' A' (updateCentroids k features A'))
        = (kmeansTraj features k C₀ (t + (s' + 1) + 1)).1
    have hA' : assignAll (kmeansTraj features k C₀ t).2 features
        = (kmeansTraj features k C₀ (t + 1)).1 := rfl
    simp only [hA']
    rw [if_neg (by simpa using hmin 0 (by omega))]
    have hupd : updateCentroids k features (kmeansTraj features k C₀ (t + 1)).1
        = (kmeansTraj features k C₀ (t + 1)).2 := rfl
    rw [hupd]
    have hstop' : (kmeansTraj features k C₀ ((t + 1) + s' + 1)).1
        = (kmeansTraj features k C₀ ((t + 1) + s')).1 := by
      rw [show (t + 1) + s' + 1 = t + (s' + 1) + 1 from by omega,
        show (t + 1) + s' = t + (s' + 1) from by omega]
      exact hstop
    have hmin' : ∀ u, u < s' →
        (kmeansTraj features k C₀ ((t + 1) + u + 1)).1
          ≠ (kmeansTraj features k C₀ ((t + 1) + u)).1 := by
      intro u hu
      rw [show (t + 1) + u + 1 = t + (u + 1) + 1 from by omega,
        show (t + 1) + u = t + (u + 1) from by omega]
      exact hmin (u + 1) (by omega)
    have := ih (t + 1) f' hstop' hmin' (by omega)
    rw [this, show (t + 1) + s' + 1 = t + (s' + 1) + 1 from by omega]

/-! ## Claim C7: the clustering loop terminates -/

/-- C7: for every finite feature batch and every `k > 0`, the
`do … while (changed)` loop reaches its no-change exit: the assignment
trajectory stabilizes within `k ^ n` passes (there is NO iteration cap in the
code — the loop's only stopping rule is an assignment pass that changes no
cluster — and, in exact arithmetic, that exit is always reached: the
within-cluster cost paired with the index sum decreases lexicographically at
every changing pass).  Consequently the fuelled embedding is fuel-independent
beyond `kmeansFuel`: giving the loop any additional budget never changes the
result, which is precisely termination of the unbounded C++ loop. -/
theorem c7_kmeans_terminates {d : ℕ} (features : List (Point d)) (k : ℕ) (rnd : ℕ → ℕ)
    (hk : 0 < k) :
    (∃ s ≤ k ^ features.length,
      (kmeansTraj features k (initCentroids features k rnd) (s + 1)).1
        = (kmeansTraj features k (initCentroids features k rnd) s).1) ∧
    ∀ m, simpleKMeansFuel (kmeansFuel features.length k + m) features k rnd
        = simpleKMeans features k rnd := by
  have hC₀ : (initCentroids features k rnd).length = k := by
    unfold initCentroids
    simp
  obtain ⟨s, hs, hstop⟩ := stops_exists features k (initCentroids features k rnd) hk hC₀
  refine ⟨⟨s, hs, hstop⟩, ?_⟩
  intro m
  unfold simpleKMeans simpleKMeansFuel
  by_cases hemp : features.length = 0 ∨ k = 0
  · rw [if_pos hemp, if_pos hemp]
  · rw [if_neg hemp, if_neg hemp]
    have hP : ∃ u, (kmeansTraj features k (initCentroids features k rnd) (u + 1)).1
        = (kmeansTraj features k (initCentroids features k rnd) u).1 := ⟨s, hstop⟩
    have hs₀ := Nat.find_spec hP
    have hs₀le : Nat.find hP ≤ s := Nat.find_min' hP hstop
    have hmin : ∀ u, u < Nat.find hP →
        (kmeansTraj features k (initCentroids features k rnd) (u + 1)).1
          ≠ (kmeansTraj features k (initCentroids features k rnd) u).1 :=
      fun u hu => Nat.find_min hP hu
    have h1 := kmeansLoop_eq_traj features k (initCentroids features k rnd) (Nat.find hP) 0
      (kmeansFuel features.length k + m) (by simpa using hs₀) (fun u hu => by
        simpa using hmin u hu)
      (by unfold kmeansFuel; omega)
    have h2 := kmeansLoop_eq_traj features k (initCentroids features k rnd) (Nat.find hP) 0
      (kmeansFuel features.length k) (by simpa using hs₀) (fun u hu => by
        simpa using hmin u hu)
      (by unfold kmeansFuel; omega)
    exact h1.trans h2.symm

/-- C7 witness: one 1-dimensional point, `k = 1`: the loop stabilizes at once
and extra fuel changes nothing. -/
theorem c7_kmeans_terminates_witness :
    (0 : ℕ) < 1 ∧
    ((∃ s ≤ 1 ^ featC8.length,
      (kmeansTraj featC8 1 (initCentroids featC8 1 id) (s + 1)).1
        = (kmeansTraj featC8 1 (initCentroids featC8 1 id) s).1) ∧
    ∀ m, simpleKMeansFuel (kmeansFuel featC8.length 1 + m) featC8 1 id
      = simpleKMeans featC8 1 id) :=
  ⟨Nat.one_pos, c7_kmeans_terminates featC8 1 id Nat.one_pos⟩

/-! ## Claim C8: the centroid update on empty clusters -/

/-- C8 (amended): in the centroid update, a cluster with at least one member
becomes the mean of its members, but a cluster with ZERO members is reset to
the all-zeros vector — `newCentroids` is freshly zero-initialized each pass
(2.cpp:420) and only clusters with `counts[j] > 0` are written (2.cpp:428-434);
the previous centroid value is discarded, not kept. -/
theorem c8_centroid_update {d : ℕ} (k : ℕ) (features : List (Point d)) (A : List ℕ)
    (j : ℕ) (hj : j < k) :
    ((updateCentroids k features A).getD j (zeroPoint d)
      = if (clusterMembers features A j).length = 0 then zeroPoint d
        else meanPoint (clusterMembers features A j)) ∧
    (clusterMembers features A j = [] ↔
      ¬ ∃ i, i < features.length ∧ i < A.length ∧ A.getD i 0 = j) := by
  constructor
  · unfold updateCentroids
    rw [getD_map_range _ k j hj]
  · unfold clusterMembers
    rw [List.map_eq_nil_iff, List.filter_eq_nil_iff]
    constructor
    · intro h hex
      obtain ⟨i, hif, hiA, hij⟩ := hex
      have hiz : i < (features.zip A).length := by
        rw [List.length_zip]
        omega
      have hmem : (features[i], A[i]) ∈ features.zip A := by
        have hg : (features.zip A)[i] = (features[i], A[i]) :=
          List.getElem_zip
        rw [← hg]
        exact List.getElem_mem hiz
      have := h _ hmem
      simp only [beq_iff_eq] at this
      apply this
      rw [List.getD_eq_getElem?_getD, List.getElem?_eq_getElem hiA] at hij
      exact hij
    · intro h p hp
      simp only [beq_iff_eq]
      intro hpj
      apply h
      obtain ⟨i, hiz, hig⟩ := List.mem_iff_getElem.mp hp
      have hif : i < features.length := List.lt_length_left_of_zip hiz
      have hiA : i < A.length := List.lt_length_right_of_zip hiz
      refine ⟨i, hif, hiA, ?_⟩
      rw [List.getD_eq_getElem?_getD, List.getElem?_eq_getElem hiA]
      have : (features[i], A[i]) = p := by
        rw [← hig]
        exact List.getElem_zip.symm
      have hsnd := congrArg Prod.snd this
      simp only at hsnd
      rw [hsnd]
      exact hpj

/-- C8 counterexample: one loop body on `featC8` with centroids
`[3, 100]`: the single feature joins cluster 0, cluster 1 empties, and its
centroid is reset to the zero vector instead of keeping its previous value
`100`. -/
theorem c8_counterexample :
    (kmeansIter featC8 2 centsC8).1 = [0] ∧
    (kmeansIter featC8 2 centsC8).2.getD 1 (zeroPoint 1) = zeroPoint 1 ∧
    centsC8.getD 1 (zeroPoint 1) = (fun _ => 100) ∧
    (kmeansIter featC8 2 centsC8).2.getD 1 (zeroPoint 1) ≠ centsC8.getD 1 (zeroPoint 1) := by
  have hsq : ∀ x y : Point 1, sqDist x y = (x 0 - y 0) ^ 2 := by
    intro x y
    unfold sqDist
    exact Fin.sum_univ_one _
  have hassign : assignAll centsC8 featC8 = [0] := by
    unfold assignAll featC8 assignPoint centsC8
    rw [show List.range ([(fun _ => 3), fun _ => (100 : ℚ)] : List (Point 1)).length
        = [0, 1] from rfl]
    simp only [List.map_cons, List.map_nil, pickBest]
    norm_num [hsq, List.getD_cons_zero, List.getD_cons_succ]
  have hmembers1 : clusterMembers featC8 [0] 1 = [] := rfl
  have hmembers1' : clusterMembers featC8 (assignAll centsC8 featC8) 1 = [] := by
    rw [hassign]
    exact hmembers1
  refine ⟨hassign, ?_, rfl, ?_⟩
  · show (updateCentroids 2 featC8 (assignAll centsC8 featC8)).getD 1 (zeroPoint 1)
      = zeroPoint 1
    unfold updateCentroids
    rw [getD_map_range _ 2 1 (by omega)]
    rw [if_pos (by rw [hmembers1']; rfl)]
  · show (updateCentroids 2 featC8 (assignAll centsC8 featC8)).getD 1 (zeroPoint 1)
      ≠ centsC8.getD 1 (zeroPoint 1)
    unfold updateCentroids
    rw [getD_map_range _ 2 1 (by omega)]
    rw [if_pos (by rw [hmembers1']; rfl)]
    intro h
    have := congrFun h 0
    unfold zeroPoint centsC8 at this
    simp only [List.getD_cons_succ, List.getD_cons_zero] at this
    norm_num at this

/-- C8 witness: the amended theorem applied at the counterexample's update
step (`k = 2`, one feature assigned to cluster 0, probe cluster `j = 1`). -/
theorem c8_centroid_update_witness :
    (1 : ℕ) < 2 ∧
    (((updateCentroids 2 featC8 [0]).getD 1 (zeroPoint 1)
        = if (clusterMembers featC8 [0] 1).length = 0 then zeroPoint 1
          else meanPoint (clusterMembers featC8 [0] 1)) ∧
      (clusterMembers featC8 [0] 1 = [] ↔
        ¬ ∃ i, i < featC8.length ∧ i < ([0] : List ℕ).length ∧ ([0] : List ℕ).getD i 0 = 1)) :=
  ⟨by omega, c8_centroid_update 2 featC8 [0] 1 (by omega)⟩

end ECommerceRec
